import Mathlib

/-!
# Verification of the TL schema-to-codec compiler (`tl_generator.py`)

This development embeds, in Lean, the semantics of the encoder/decoder code
that `TLGenerator` emits for schema entities, together with the generator's
own compile-time computations (`_is_boxed`, the `type_defs` of
`_write_init_py`, the `tlobjects` registry of `generate_tlobjects`, the
`can_be_inferred` handling of `_write_source_code`, and
`write_request_result_code`), and proves or refutes the specification's
claims about them.

Conventions:
* Byte streams are `List Nat` (each entry a byte value).
* Python runtime values held in a generated object's attributes are the
  inductive type `Val`.  An instance of a generated class is modelled
  positionally: one `Val` per schema argument, in declared order (schema
  well-formedness gives distinct argument names, so Python's by-name
  attribute access coincides with positional access; the positions of
  `flag_indicator` and `generic_definition` arguments, which the generated
  `__init__` does not store, hold `Val.none`).
* Fallible Python operations (`struct.pack` range errors, `assert`,
  exhausted readers, unknown constructor ids) are modelled with `Option`.
* IEEE-754 doubles are modelled by their 8-byte little-endian
  representation, which is exactly what travels on the wire.
-/

namespace TLGen

/-! ## Part 1: definitions -/

/-! ### Little-endian byte packing -/

/-- `k` little-endian bytes of the natural number `n` (the layout of
`struct.pack` for unsigned integers). -/
def byteLE : Nat → Nat → List Nat
  | 0, _ => []
  | k + 1, n => n % 256 :: byteLE k (n / 256)

/-- Read a little-endian byte list back into a natural number. -/
def bytesToNat : List Nat → Nat
  | [] => 0
  | b :: bs => b + 256 * bytesToNat bs

/-- Interpret a `k`-byte unsigned value as a signed two's-complement
integer (the semantics of a signed little-endian read). -/
def toSigned (k : Nat) (m : Nat) : Int :=
  if m < 256 ^ k / 2 then (m : Int) else (m : Int) - (256 ^ k : Nat)

/-- `struct.pack`-style signed little-endian packing: defined exactly for
integers in the `k`-byte two's-complement range. -/
def packSigned (k : Nat) (n : Int) : Option (List Nat) :=
  if -((256 ^ k / 2 : Nat) : Int) ≤ n ∧ n < ((256 ^ k / 2 : Nat) : Int) then
    some (byteLE k (n.emod ((256 ^ k : Nat) : Int)).toNat)
  else
    none

/-- `struct.pack('<I', n)`: 4 unsigned little-endian bytes, defined for
`n < 2^32`. -/
def packU32 (n : Nat) : Option (List Nat) :=
  if n < 256 ^ 4 then some (byteLE 4 n) else none

/-- Take exactly `k` bytes off the front of a stream, failing on a short
read (`UnexpectedEndOfStream`). -/
def readBytes (k : Nat) (input : List Nat) : Option (List Nat × List Nat) :=
  if k ≤ input.length then some (input.take k, input.drop k) else none

/-! ### The entity/field data model (§3)

`TLArg` and `TLObject` mirror the parsed schema records the generator
consumes (the parser itself is out of scope; these are exactly the
attributes `tl_generator.py` reads). -/

structure TLArg where
  name : String
  type : String
  is_vector : Bool
  use_vector_id : Bool
  is_flag : Bool
  flag_index : Nat
  flag_indicator : Bool
  generic_definition : Bool
  can_be_inferred : Bool
  skip_constructor_id : Bool
  deriving DecidableEq, Repr

/-- A convenient constructor for a plain (non-flag, non-vector) argument. -/
def plainArg (name type : String) : TLArg :=
  ⟨name, type, false, false, false, 0, false, false, false, false⟩

structure TLObject where
  id : Nat
  name : String
  namespc : Option String
  result : String
  is_function : Bool
  args : List TLArg
  deriving DecidableEq, Repr

/-- The schema is the ordered sequence of parsed entities. -/
abbrev Schema := List TLObject

/-- Lookup in the generated `tlobjects` dictionary
(`all_tlobjects.py`).  The generator writes one `constructor_id: class`
entry per entity, in declaration order, into a Python `dict` literal, so a
repeated constructor id resolves to the *last* entity carrying it. -/
def lookupCid (sch : Schema) (cid : Nat) : Option TLObject :=
  (sch.filter (fun e => e.id == cid)).getLast?

/-- Split a character list at its first `'.'` (Python `find('.')` on the
declared type, as the bare-dispatch import logic does). -/
def breakAtDot : List Char → Option (List Char × List Char)
  | [] => Option.none
  | c :: rest =>
    if c = '.' then some ([], rest)
    else (breakAtDot rest).map (fun p => (c :: p.1, p.2))

/-- Static (bare) dispatch: the generated `from_reader` for a
`skip_constructor_id` field imports the class named by the field's
declared type (splitting one namespace off at the first `'.'`) and calls
its `from_reader`; the imported class is the schema entity with that
namespace and name. -/
def lookupByTypeName (sch : Schema) (t : String) : Option TLObject :=
  match breakAtDot t.data with
  | Option.none => sch.find? (fun e => e.name == t && e.namespc == Option.none)
  | some (ns, n) =>
    sch.find? (fun e => e.name == String.mk n && e.namespc == some (String.mk ns))

/-! ### Runtime values -/

/-- Python values stored in the attributes of generated TLObject
instances.  `obj cid fields` is an instance of the generated class whose
`CONSTRUCTOR_ID` is `cid`, with one entry per schema argument of that
class (positions of `flag_indicator` / `generic_definition` arguments
hold `none`). -/
inductive Val where
  | none
  | vint (n : Int)
  | vlong (n : Int)
  | vint128 (n : Int)
  | vint256 (n : Int)
  | vdouble (bytes : List Nat)
  | vstr (utf8 : List Nat)
  | vbytes (bytes : List Nat)
  | vbool (b : Bool)
  | vdate (unix : Int)
  | obj (cid : Nat) (fields : List Val)
  | vec (elems : List Val)

mutual

/-- Structural equality of runtime values (CPython `==` on the generated
instances' attribute values, with instances compared class-and-fields). -/
def Val.beq : Val → Val → Bool
  | .none, .none => true
  | .vint a, .vint b => a == b
  | .vlong a, .vlong b => a == b
  | .vint128 a, .vint128 b => a == b
  | .vint256 a, .vint256 b => a == b
  | .vdouble a, .vdouble b => a == b
  | .vstr a, .vstr b => a == b
  | .vbytes a, .vbytes b => a == b
  | .vbool a, .vbool b => a == b
  | .vdate a, .vdate b => a == b
  | .obj c f, .obj d g => c == d && Val.beqs f g
  | .vec f, .vec g => Val.beqs f g
  | _, _ => false

/-- Pointwise equality of value lists. -/
def Val.beqs : List Val → List Val → Bool
  | [], [] => true
  | a :: as', b :: bs' => Val.beq a b && Val.beqs as' bs'
  | _, _ => false

end

instance : BEq Val := ⟨Val.beq⟩

/-- Presence test used by the generated `__bytes__`: an optional (flag)
field is written, and its bit set, exactly when its value is neither
`None` nor `False` (`0 if {0} is None or {0} is False else ...`). -/
def presentV (v : Val) : Bool :=
  !(v == Val.none || v == Val.vbool false)

/-- First conjunct of the generated flag-group assertion,
`(self.x or self.x is not None)`: a truthy value is in particular not
`None`, so the disjunction is equivalent to `self.x is not None`. -/
def cnd1 (v : Val) : Bool :=
  !(v == Val.none)

/-- Second conjunct of the generated flag-group assertion,
`(self.x is None or self.x is False)` (`is` is identity: `0 is False`
is false in CPython, matching structural disequality of `Val`). -/
def cnd2 (v : Val) : Bool :=
  v == Val.none || v == Val.vbool false

/-- The distinct `flag_index` values of the flag arguments, in order of
first appearance (the keys of the `repeated_args` defaultdict). -/
def flagIndices (args : List TLArg) : List Nat :=
  ((args.filter (fun a => a.is_flag)).map (fun a => a.flag_index)).dedup

/-- The `assert` emitted at the top of `__bytes__` for every group of two
or more flag arguments sharing a `flag_index`: all of them satisfy
`(self.x or self.x is not None)`, or all satisfy
`(self.x is None or self.x is False)`. -/
def assertOK (ctx : List (TLArg × Val)) : Bool :=
  (flagIndices (ctx.map Prod.fst)).all fun i =>
    let group := ctx.filter (fun p => p.1.is_flag && p.1.flag_index == i)
    decide (group.length ≤ 1) || group.all (fun p => cnd1 p.2) ||
      group.all (fun p => cnd2 p.2)

/-- The bitmask written at a `flag_indicator` position: the OR-chain
`(0 if self.x is None or self.x is False else 1 << flag_index) | ...`
over the flag arguments, in declaration order. -/
def maskOf (ctx : List (TLArg × Val)) : Nat :=
  ctx.foldr
    (fun p acc =>
      if p.1.is_flag then (if presentV p.2 then 1 <<< p.1.flag_index else 0) ||| acc
      else acc)
    0

/-- The fixed vector marker bytes `b'\x15\xc4\xb5\x1c'` emitted for
`use_vector_id` vectors (little-endian `0x1cb5c415`). -/
def vectorIdBytes : List Nat := [0x15, 0xc4, 0xb5, 0x1c]

/-- `b'\xb5ur\x99'`: the fixed 4-byte sentinel for boolean true
(little-endian `0x997275b5`). -/
def boolTrueBytes : List Nat := [0xb5, 0x75, 0x72, 0x99]

/-- `b'7\x97y\xbc'`: the fixed 4-byte sentinel for boolean false
(little-endian `0xbc799737`). -/
def boolFalseBytes : List Nat := [0x37, 0x97, 0x79, 0xbc]

/-- Modelled from the spec: `TLObject.serialize_bytes` (the `tlobject.py`
runtime module is not part of the source tree).  Length-prefixed
self-delimiting byte strings: content length < 254 uses one length byte,
content, zero-padding to a 4-byte boundary; otherwise a `0xFE` escape
byte, a 3-byte little-endian length, content, zero-padding to a 4-byte
boundary.  Content of `2^24` bytes or more does not fit the 3-byte
length. -/
def serializeBytes (s : List Nat) : Option (List Nat) :=
  if s.length < 254 then
    some ([s.length] ++ s ++ List.replicate ((4 - (1 + s.length) % 4) % 4) 0)
  else if s.length < 256 ^ 3 then
    some ([254] ++ byteLE 3 s.length ++ s ++
      List.replicate ((4 - (4 + s.length) % 4) % 4) 0)
  else
    Option.none

/-- Modelled from the spec: `TLObject.serialize_datetime` — a timestamp
is a 32-bit unix-time integer on the wire. -/
def serializeDate (n : Int) : Option (List Nat) := packSigned 4 n

/-- The primitive type names the generated `__bytes__` / `from_reader`
dispatch on before falling back to the custom-type case. -/
def isPrimitiveType (t : String) : Bool :=
  t == "int" || t == "long" || t == "int128" || t == "int256" ||
  t == "double" || t == "string" || t == "Bool" || t == "true" ||
  t == "bytes" || t == "date"

/-- The primitive branches of `TLGenerator.write_to_bytes`, in source
order: `int`, `long`, `int128`, `int256`, `double`, `string`, `Bool`,
`true` (never written), `bytes`, `date`. -/
def writePrim (t : String) (v : Val) : Option (List Nat) :=
  if t == "int" then
    match v with
    | .vint n => packSigned 4 n
    | _ => Option.none
  else if t == "long" then
    match v with
    | .vlong n => packSigned 8 n
    | _ => Option.none
  else if t == "int128" then
    match v with
    | .vint128 n => packSigned 16 n
    | _ => Option.none
  else if t == "int256" then
    match v with
    | .vint256 n => packSigned 32 n
    | _ => Option.none
  else if t == "double" then
    match v with
    | .vdouble bs => if bs.length = 8 then some bs else Option.none
    | _ => Option.none
  else if t == "string" then
    match v with
    | .vstr s => serializeBytes s
    | _ => Option.none
  else if t == "Bool" then
    match v with
    | .vbool b => some (if b then boolTrueBytes else boolFalseBytes)
    | _ => Option.none
  else if t == "true" then
    some []
  else if t == "bytes" then
    match v with
    | .vbytes s => serializeBytes s
    | _ => Option.none
  else if t == "date" then
    match v with
    | .vdate n => serializeDate n
    | _ => Option.none
  else
    Option.none

mutual

/-- `TLGenerator.write_to_bytes`: the byte serialization of one argument
of the generated `__bytes__`, mirroring the source's branch order:
`generic_definition` arguments contribute nothing; `true`-typed flags are
never written; other flag arguments contribute `b''` when their value is
`None` or `False`; vectors write the optional vector id,
`struct.pack('<i', len(...))`, and each element with `is_vector` and
`is_flag` temporarily disabled (exactly the source's temporary
reassignment); a `flag_indicator` writes the computed bitmask (or four
zero bytes when the entity has no flag arguments at all); primitives use
their fixed encodings; and the final fallback `bytes({})` invokes the
nested instance's own generated `__bytes__` — flag-group assertions,
`struct.pack('<I', CONSTRUCTOR_ID)`, then every argument in declaration
order.  `ctx` pairs the entity's arguments with the instance's values
(the source reads them as `self.<name>`; names are unique in a
well-formed schema, so by-name access is positional access). -/
def write_to_bytes (sch : Schema) (a : TLArg) (v : Val) (ctx : List (TLArg × Val)) :
    Option (List Nat) :=
  if a.generic_definition then some []
  else if a.is_flag && a.type == "true" then some []
  else if a.is_flag && cnd2 v then some []
  else if a.is_vector then
    match v with
    | .vec xs => do
      let count ← packSigned 4 (xs.length : Int)
      let body ←
        writeVecElems sch { a with is_vector := false, is_flag := false } xs ctx
      pure ((if a.use_vector_id then vectorIdBytes else []) ++ count ++ body)
    | _ => Option.none
  else if a.flag_indicator then
    if (ctx.map Prod.fst).any (fun f => f.is_flag) then packU32 (maskOf ctx)
    else some [0, 0, 0, 0]
  else if isPrimitiveType a.type then
    writePrim a.type v
  else
    match v with
    | .obj cid flds =>
      match lookupCid sch cid with
      | some e =>
        if flds.length == e.args.length && assertOK (e.args.zip flds) then do
          let hd ← packU32 e.id
          let body ← writeArgsJoin sch e.args flds (e.args.zip flds)
          pure (hd ++ body)
        else Option.none
      | Option.none => Option.none
    | _ => Option.none

/-- The `b''.join(... for x in ...)` over vector elements. -/
def writeVecElems (sch : Schema) (a : TLArg) (xs : List Val)
    (ctx : List (TLArg × Val)) : Option (List Nat) :=
  match xs with
  | [] => some []
  | x :: rest => do
    let h ← write_to_bytes sch a x ctx
    let r ← writeVecElems sch a rest ctx
    pure (h ++ r)

/-- The `b''.join((...))` over an entity's arguments in declaration
order (`vs` is positional, one value per argument). -/
def writeArgsJoin (sch : Schema) (args : List TLArg) (vs : List Val)
    (ctx : List (TLArg × Val)) : Option (List Nat) :=
  match args, vs with
  | [], [] => some []
  | a :: as', v :: vs' => do
    let h ← write_to_bytes sch a v ctx
    let r ← writeArgsJoin sch as' vs' ctx
    pure (h ++ r)
  | _, _ => Option.none

end

/-- The generated `__bytes__` of an entity applied to an instance:
flag-group assertions, `struct.pack('<I', CONSTRUCTOR_ID)`, then every
argument in declaration order (the entity-entry steps of
`_write_source_code`, identical to the custom-type fallback in
`write_to_bytes`). -/
def writeEntity (sch : Schema) (e : TLObject) (flds : List Val) :
    Option (List Nat) :=
  if flds.length == e.args.length && assertOK (e.args.zip flds) then do
    let hd ← packU32 e.id
    let body ← writeArgsJoin sch e.args flds (e.args.zip flds)
    pure (hd ++ body)
  else Option.none

/-- Modelled from the spec: `BinaryReader.tgread_bytes` — read one length
byte; `254` escapes to a 3-byte little-endian length; then the content
and the zero-padding to the 4-byte boundary are consumed. -/
def tgreadBytesFrame (input : List Nat) : Option (List Nat × List Nat) := do
  let (lb, r1) ← readBytes 1 input
  match lb with
  | [l] =>
    if l == 254 then do
      let (lenb, r2) ← readBytes 3 r1
      let len := bytesToNat lenb
      let (content, r3) ← readBytes len r2
      let (_, r4) ← readBytes ((4 - (4 + len) % 4) % 4) r3
      pure (content, r4)
    else do
      let (content, r2) ← readBytes l r1
      let (_, r3) ← readBytes ((4 - (1 + l) % 4) % 4) r2
      pure (content, r3)
  | _ => Option.none

/-- Modelled from the spec: `BinaryReader.tgread_bool` — the two fixed
4-byte sentinels decode to `True`/`False`; anything else is an error. -/
def tgreadBoolFrame (input : List Nat) : Option (Bool × List Nat) := do
  let (bs, rest) ← readBytes 4 input
  if bs == boolTrueBytes then pure (true, rest)
  else if bs == boolFalseBytes then pure (false, rest)
  else Option.none

/-- The primitive branches of `TLGenerator.write_read_code`
(`reader.read_int()` etc.; the reader primitives live in the runtime
module, modelled from the spec in byte-level form above). -/
def readPrim (t : String) (input : List Nat) : Option (Val × List Nat) :=
  if t == "int" then do
    let (bs, rest) ← readBytes 4 input
    pure (Val.vint (toSigned 4 (bytesToNat bs)), rest)
  else if t == "long" then do
    let (bs, rest) ← readBytes 8 input
    pure (Val.vlong (toSigned 8 (bytesToNat bs)), rest)
  else if t == "int128" then do
    let (bs, rest) ← readBytes 16 input
    pure (Val.vint128 (toSigned 16 (bytesToNat bs)), rest)
  else if t == "int256" then do
    let (bs, rest) ← readBytes 32 input
    pure (Val.vint256 (toSigned 32 (bytesToNat bs)), rest)
  else if t == "double" then do
    let (bs, rest) ← readBytes 8 input
    pure (Val.vdouble bs, rest)
  else if t == "string" then do
    let (s, rest) ← tgreadBytesFrame input
    pure (Val.vstr s, rest)
  else if t == "Bool" then do
    let (b, rest) ← tgreadBoolFrame input
    pure (Val.vbool b, rest)
  else if t == "true" then
    some (Val.vbool true, input)
  else if t == "bytes" then do
    let (s, rest) ← tgreadBytesFrame input
    pure (Val.vbytes s, rest)
  else if t == "date" then do
    let (bs, rest) ← readBytes 4 input
    pure (Val.vdate (toSigned 4 (bytesToNat bs)), rest)
  else
    Option.none

mutual

/-- `TLGenerator.write_read_code`: the deserialization of one argument by
the generated `from_reader`, mirroring the source's branch order.
`flagsSt` is the local `flags` variable (`Option.none` before any
`flag_indicator` argument has been read; referencing it then is a Python
`NameError`, i.e. failure).  A flag argument is read only when its bit is
set (re-entering with `is_flag` disabled, as the source does); a vector
consumes (and discards) the vector id when `use_vector_id`, reads a
32-bit signed count and then that many elements with `is_vector`
disabled; a `flag_indicator` reads the 32-bit bitmask into `flagsSt`;
primitives are read by the reader primitives; a custom type is read via
`reader.tgread_object()` (modelled from the spec: read a 4-byte
constructor id, look it up in the registry, and run that entity's
`from_reader`; unknown ids fail) unless `skip_constructor_id`, in which
case the entity named by the declared type is decoded statically with no
id read.  `fuel` bounds the call depth (bare self-reference does not
terminate otherwise); every recursive call decrements it. -/
def write_read_code (fuel : Nat) (sch : Schema) (a : TLArg)
    (flagsSt : Option Nat) (input : List Nat) :
    Option (Val × Option Nat × List Nat) :=
  match fuel with
  | 0 => Option.none
  | fuel + 1 =>
    if a.generic_definition then some (Val.none, flagsSt, input)
    else if a.is_flag && a.type == "true" then
      match flagsSt with
      | some f => some (Val.vbool (f &&& (1 <<< a.flag_index) != 0), flagsSt, input)
      | Option.none => Option.none
    else if a.is_flag then
      match flagsSt with
      | some f =>
        if f &&& (1 <<< a.flag_index) != 0 then
          write_read_code fuel sch { a with is_flag := false } flagsSt input
        else some (Val.none, flagsSt, input)
      | Option.none => Option.none
    else if a.is_vector then do
      let (_, r0) ←
        if a.use_vector_id then readBytes 4 input else some ([], input)
      let (cb, r1) ← readBytes 4 r0
      let count := toSigned 4 (bytesToNat cb)
      let (xs, fl', r2) ←
        readVecElems fuel sch { a with is_vector := false } count.toNat flagsSt r1
      pure (Val.vec xs, fl', r2)
    else if a.flag_indicator then do
      let (fb, rest) ← readBytes 4 input
      pure (Val.none, some (bytesToNat fb), rest)
    else if isPrimitiveType a.type then do
      let (v, rest) ← readPrim a.type input
      pure (v, flagsSt, rest)
    else if !a.skip_constructor_id then do
      let (ib, rest) ← readBytes 4 input
      let cid := bytesToNat ib
      match lookupCid sch cid with
      | some e => do
        let (vals, r2) ← readArgsList fuel sch e.args Option.none rest
        pure (Val.obj cid vals, flagsSt, r2)
      | Option.none => Option.none
    else
      match lookupByTypeName sch a.type with
      | some e => do
        let (vals, r2) ← readArgsList fuel sch e.args Option.none input
        pure (Val.obj e.id vals, flagsSt, r2)
      | Option.none => Option.none

/-- The element-reading loop `for _ in range(reader.read_int())`,
threading the local `flags` state. -/
def readVecElems (fuel : Nat) (sch : Schema) (a : TLArg) (count : Nat)
    (flagsSt : Option Nat) (input : List Nat) :
    Option (List Val × Option Nat × List Nat) :=
  match fuel with
  | 0 => Option.none
  | fuel + 1 =>
    match count with
    | 0 => some ([], flagsSt, input)
    | c + 1 => do
      let (v, fl', r1) ← write_read_code fuel sch a flagsSt input
      let (vs, fl'', r2) ← readVecElems fuel sch a c fl' r1
      pure (v :: vs, fl'', r2)

/-- The argument-reading sequence of a generated `from_reader`: every
argument in declaration order, starting with no `flags` local; the
result is the positional value list the constructed instance stores
(`Val.none` at `flag_indicator` / `generic_definition` positions). -/
def readArgsList (fuel : Nat) (sch : Schema) (args : List TLArg)
    (flagsSt : Option Nat) (input : List Nat) :
    Option (List Val × List Nat) :=
  match fuel with
  | 0 => Option.none
  | fuel + 1 =>
    match args with
    | [] => some ([], input)
    | a :: rest => do
      let (v, fl', r1) ← write_read_code fuel sch a flagsSt input
      let (vs, r2) ← readArgsList fuel sch rest fl' r1
      pure (v :: vs, r2)

end

/-- Modelled from the spec: `BinaryReader.tgread_object` — read a 4-byte
constructor id, look it up in the published registry, and dispatch to
that entity's `from_reader`; fails (`UnknownConstructorId`) when no
entity carries the id. -/
def tgread_object (fuel : Nat) (sch : Schema) (input : List Nat) :
    Option (Val × List Nat) := do
  let (ib, rest) ← readBytes 4 input
  let cid := bytesToNat ib
  match lookupCid sch cid with
  | some e => do
    let (vals, r2) ← readArgsList fuel sch e.args Option.none rest
    pure (Val.obj cid vals, r2)
  | Option.none => Option.none

/-- The generated static `from_reader` of one entity: read every argument
in order and construct the instance. -/
def from_reader (fuel : Nat) (sch : Schema) (e : TLObject) (input : List Nat) :
    Option (Val × List Nat) := do
  let (vals, rest) ← readArgsList fuel sch e.args Option.none input
  pure (Val.obj e.id vals, rest)

/-! ### Well-formedness, well-typedness, and decode canonicalization -/

/-- No flag argument may precede the first `flag_indicator` (§3 invariant;
the generated `from_reader` would otherwise reference the `flags` local
before assignment). -/
def flagsAfterIndicator : List TLArg → Bool
  | [] => true
  | a :: rest =>
    if !a.generic_definition && !a.is_flag && !a.is_vector && a.flag_indicator then
      true
    else !a.is_flag && flagsAfterIndicator rest

/-- Static well-formedness of one entity as the generator assumes it:
a registrable 32-bit constructor id, flag bits that fit the 32-bit
bitmask, distinct argument names (so by-name attribute access is
positional), and no flag argument before its indicator. -/
def entityWF (e : TLObject) : Bool :=
  decide (e.id < 256 ^ 4) &&
  e.args.all (fun a => decide (a.flag_index < 32)) &&
  decide ((e.args.map TLArg.name).Nodup) &&
  flagsAfterIndicator e.args

/-- Every co-dependent flag group is all-present or all-absent (presence
in the `__bytes__` sense: neither `None` nor `False`).  This is the
§4.3 co-dependency contract; it is strictly stronger than the generated
assertion (see the C6 analysis). -/
def flagConsistent (ctx : List (TLArg × Val)) : Bool :=
  (flagIndices (ctx.map Prod.fst)).all fun i =>
    let group := ctx.filter (fun p => p.1.is_flag && p.1.flag_index == i)
    group.all (fun p => presentV p.2) || group.all (fun p => !presentV p.2)

/-- Well-typedness of one primitive value: declared shape and range. -/
def wtPrim (t : String) (v : Val) : Bool :=
  if t == "int" then
    match v with
    | .vint n => decide (-(2 ^ 31 : Int) ≤ n ∧ n < 2 ^ 31)
    | _ => false
  else if t == "long" then
    match v with
    | .vlong n => decide (-(2 ^ 63 : Int) ≤ n ∧ n < 2 ^ 63)
    | _ => false
  else if t == "int128" then
    match v with
    | .vint128 n => decide (-(2 ^ 127 : Int) ≤ n ∧ n < 2 ^ 127)
    | _ => false
  else if t == "int256" then
    match v with
    | .vint256 n => decide (-(2 ^ 255 : Int) ≤ n ∧ n < 2 ^ 255)
    | _ => false
  else if t == "double" then
    match v with
    | .vdouble bs => bs.length == 8
    | _ => false
  else if t == "string" then
    match v with
    | .vstr s => decide (s.length < 256 ^ 3)
    | _ => false
  else if t == "Bool" then
    match v with
    | .vbool _ => true
    | _ => false
  else if t == "true" then
    v == Val.vbool true
  else if t == "bytes" then
    match v with
    | .vbytes s => decide (s.length < 256 ^ 3)
    | _ => false
  else if t == "date" then
    match v with
    | .vdate n => decide (-(2 ^ 31 : Int) ≤ n ∧ n < 2 ^ 31)
    | _ => false
  else
    false

mutual

/-- Well-typedness of one argument's value with respect to its schema
argument, the hypothesis under which the generated codec round-trips:
`generic_definition` / `flag_indicator` positions hold `None` (the
generated `__init__` does not store them); a `true`-kind flag holds a
boolean or `None`; any other flag is `None`/`False` (absent) or holds a
well-typed payload; payloads have the declared primitive shape and range,
vectors are lists shorter than `2^31` of well-typed bare elements, and a
custom-typed value is an instance of a registered entity that is itself
well-formed and well-typed — and the argument is not
`skip_constructor_id` (the encoder has no bare mode, so bare fields are
excluded from the round-trip domain). -/
def wtArg (sch : Schema) (a : TLArg) (v : Val) : Bool :=
  if a.generic_definition then v == Val.none
  else if a.is_flag && a.type == "true" then
    v == Val.none || v == Val.vbool true || v == Val.vbool false
  else if a.is_flag && cnd2 v then true
  else if a.is_vector then
    match v with
    | .vec xs =>
      !a.flag_indicator && decide (xs.length < 2 ^ 31) &&
        wtVecElems sch { a with is_vector := false, is_flag := false } xs
    | _ => false
  else if a.flag_indicator then v == Val.none
  else if isPrimitiveType a.type then wtPrim a.type v
  else
    match v with
    | .obj cid flds =>
      !a.skip_constructor_id &&
        match lookupCid sch cid with
        | some e =>
          flds.length == e.args.length && entityWF e &&
            flagConsistent (e.args.zip flds) && wtArgsList sch e.args flds
        | Option.none => false
    | _ => false

/-- Well-typedness of vector elements. -/
def wtVecElems (sch : Schema) (a : TLArg) (xs : List Val) : Bool :=
  match xs with
  | [] => true
  | x :: rest => wtArg sch a x && wtVecElems sch a rest

/-- Positional well-typedness of an instance's values. -/
def wtArgsList (sch : Schema) (args : List TLArg) (vs : List Val) : Bool :=
  match args, vs with
  | [], [] => true
  | a :: as', v :: vs' => wtArg sch a v && wtArgsList sch as' vs'
  | _, _ => false

end

mutual

/-- What the generated `from_reader` reconstructs from the encoding of a
well-typed value: identical except that `generic_definition` /
`flag_indicator` positions stay `None`, a `true`-kind flag becomes the
boolean presence bit, an absent flag becomes `None` (even if it was
supplied as `False`), a non-flag `true`-typed argument becomes `True`,
and the rule is applied recursively inside vectors and nested
instances. -/
def canonArg (sch : Schema) (a : TLArg) (v : Val) : Val :=
  if a.generic_definition then Val.none
  else if a.is_flag && a.type == "true" then Val.vbool (presentV v)
  else if a.is_flag && cnd2 v then Val.none
  else if a.is_vector then
    match v with
    | .vec xs =>
      Val.vec (canonVecElems sch { a with is_vector := false, is_flag := false } xs)
    | _ => v
  else if a.flag_indicator then Val.none
  else if a.type == "true" then Val.vbool true
  else if isPrimitiveType a.type then v
  else
    match v with
    | .obj cid flds =>
      match lookupCid sch cid with
      | some e => Val.obj cid (canonArgsList sch e.args flds)
      | Option.none => v
    | _ => v

/-- Canonicalization of vector elements. -/
def canonVecElems (sch : Schema) (a : TLArg) (xs : List Val) : List Val :=
  match xs with
  | [] => []
  | x :: rest => canonArg sch a x :: canonVecElems sch a rest

/-- Positional canonicalization of an instance's values. -/
def canonArgsList (sch : Schema) (args : List TLArg) (vs : List Val) : List Val :=
  match args, vs with
  | a :: as', v :: vs' => canonArg sch a v :: canonArgsList sch as' vs'
  | _, _ => []

end

/-- The `flags` local after the generated `from_reader` has processed one
argument: a (reachable) `flag_indicator` stores the read bitmask —
which, on round-trip data, is the mask computed from the entity
context — and every other argument leaves the state unchanged. -/
def flagsOutArg (a : TLArg) (ctx : List (TLArg × Val)) (flagsB : Option Nat) :
    Option Nat :=
  if !a.generic_definition && !a.is_flag && !a.is_vector && a.flag_indicator then
    some (maskOf ctx)
  else flagsB

mutual

/-- An upper bound on the decoder fuel consumed when reading back the
encoding of a well-typed value (each recursive decoder call consumes one
unit of fuel; the bound is generous). -/
def dneedV : Val → Nat
  | .obj _ flds => 3 + dneedVs flds
  | .vec xs => 3 + dneedEs xs
  | _ => 3

/-- Decoder-fuel bound for an instance's positional values. -/
def dneedVs : List Val → Nat
  | [] => 1
  | v :: rest => 3 + max (dneedV v) (dneedVs rest)

/-- Decoder-fuel bound for a vector's elements. -/
def dneedEs : List Val → Nat
  | [] => 1
  | x :: rest => 3 + max (dneedV x) (dneedEs rest)

end

/-! ### Compile-time computations of the generator itself -/

/-- Python `str.find`: index of the first occurrence, `-1` when absent. -/
def pyFind (s : List Char) (c : Char) : Int :=
  match s with
  | [] => -1
  | x :: rest =>
    if x = c then 0
    else
      let r := pyFind rest c
      if r = -1 then -1 else r + 1

/-- `TLGenerator._is_boxed`: look at the character just after
`max(type_.find('<'), type_.find('.'))` (first occurrences, `-1` when
absent) and report whether it is uppercase.  Indexing past the end is a
Python `IndexError`, modelled as `Option.none`. -/
def is_boxed (t : List Char) : Option Bool :=
  let check_after := max (pyFind t '<') (pyFind t '.')
  match t.get? (check_after + 1).toNat with
  | some ch => some ch.isUpper
  | Option.none => Option.none

/-- Index of the last occurrence of `'<'` or `'.'`, `-1` when neither
occurs.  This is the rule the specification states for the boxed/bare
classifier ("the character immediately following the last occurrence of
`<` or `.`"); it is compared against the source's `is_boxed`. -/
def lastSepIndex (s : List Char) : Int :=
  match s with
  | [] => -1
  | x :: rest =>
    let r := lastSepIndex rest
    if r = -1 then (if x = '<' ∨ x = '.' then 0 else -1) else r + 1

/-- The specification's wording of the boxed/bare classifier: uppercase
character immediately after the last `'<'` or `'.'`. -/
def boxedRuleSpec (t : List Char) : Option Bool :=
  match t.get? (lastSepIndex t + 1).toNat with
  | some ch => some ch.isUpper
  | Option.none => Option.none

/-- The `type_constructors` mapping of `generate_tlobjects`: the
non-function entities whose `result` equals the given type name, in
schema declaration order (`defaultdict(list)` append order). -/
def type_constructors (sch : Schema) (res : String) : List TLObject :=
  sch.filter (fun e => !e.is_function && e.result == res)

/-- One `Type<name> = ...` definition written at the bottom of a
generated module: an alias for a single-constructor result type, an
explicit union for a multi-constructor one. -/
inductive TypeDef where
  | alias (typeName : String) (c : TLObject)
  | union (typeName : String) (cs : List TLObject)
  deriving DecidableEq

/-- The suffix of a character list starting at its last `'.'` (dot
included), if any. -/
def lastDotSplit : List Char → Option (List Char)
  | [] => Option.none
  | x :: rest =>
    match lastDotSplit rest with
    | some suffix => some suffix
    | Option.none => if x = '.' then some (x :: rest) else Option.none

/-- Python `type_name[type_name.rindex('.'):]`: the suffix starting *at*
the last dot (the dot is kept — `rindex`, not `rindex + 1`). -/
def tailFromLastDot (s : String) : String :=
  match lastDotSplit s.data with
  | some suffix => String.mk suffix
  | Option.none => s

/-- The `type_defs` loop of `TLGenerator._write_init_py`: walk the
module's entities (the caller passes them sorted by name), take each
non-function's `result`, replace it by its `[rindex('.'):]` suffix when
it contains a dot, skip names already seen, and emit nothing / an alias
/ a union according to how many constructors `type_constructors` holds
under the (possibly rewritten) name. -/
def write_init_type_defs (sch : Schema) (fileObjs : List TLObject)
    (seen : List String) : List TypeDef :=
  match fileObjs with
  | [] => []
  | t :: rest =>
    if t.is_function then write_init_type_defs sch rest seen
    else
      let tn0 := t.result
      let tn := if tn0.data.contains '.' then tailFromLastDot tn0 else tn0
      if seen.contains tn then write_init_type_defs sch rest seen
      else
        let cs := type_constructors sch tn
        (match cs with
         | [] => []
         | [c] => [TypeDef.alias tn c]
         | _ => [TypeDef.union tn cs]) ++
          write_init_type_defs sch rest (tn :: seen)

/-- The entries of the `tlobjects = { ... }` dictionary literal written
into `all_tlobjects.py`: one `constructor_id: class` pair per entity, in
declaration order. -/
def tlobjectsEntries (sch : Schema) : List (Nat × TLObject) :=
  sch.map (fun e => (e.id, e))

/-- Lookup in a Python `dict` literal: when a key is repeated, the last
binding wins. -/
def dictLookup (entries : List (Nat × TLObject)) (key : Nat) : Option TLObject :=
  match entries with
  | [] => Option.none
  | (k, v) :: rest =>
    match dictLookup rest key with
    | some r => some r
    | Option.none => if k == key then some v else Option.none

/-- The inferred-value plan computed by `_write_source_code` for a
`can_be_inferred` argument. -/
inductive InferPlan where
  | scalar (widthBytes : Nat)
  | vectorOfLen (widthBytes : Nat) (refArgName : String)
  deriving DecidableEq

/-- The `can_be_inferred` handling of `_write_source_code` (`args` is the
entity's argument list with `flag_indicator` and `generic_definition`
members removed, as at that point of the source): only an argument named
`random_id` is inferrable; its correlation width is 8 bytes for `long`
and 4 otherwise; a vector `random_id` requires the argument named `id`
(the first one, `next(...)`) to exist — otherwise the `next` call, run
by the generator while writing the class, raises `StopIteration` at
schema-compile time — and to be a vector — otherwise `ValueError`, also
at schema-compile time — and is then a list of `len(id)` fresh
values. -/
def infer_random_id (args : List TLArg) (a : TLArg) : Except String InferPlan :=
  if a.name == "random_id" then
    let width := if a.type == "long" then 8 else 4
    if a.is_vector then
      match args.find? (fun x => x.name == "id") with
      | some idArg =>
        if idArg.is_vector then Except.ok (InferPlan.vectorOfLen width "id")
        else Except.error "ValueError: Cannot infer list of random ids"
      | Option.none => Except.error "StopIteration"
    else Except.ok (InferPlan.scalar width)
  else Except.error "ValueError: Cannot infer a value"

/-- `int.from_bytes(os.urandom(w), 'big', signed=True)`: the signed
big-endian interpretation of `w` fresh random bytes. -/
def randomCorrelationId (w : Nat) (randomBytes : List Nat) : Int :=
  toSigned w (bytesToNat randomBytes.reverse)

/-- The response-decoding code emitted by
`TLGenerator.write_request_result_code`, one constructor per source
branch. -/
inductive ResultReaderCode where
  | vecIntSpecial
  | vecLongSpecial
  | tgreadVectorCall
  | tgreadObjectCall
  deriving DecidableEq

/-- `s.startswith(p)` on character lists. -/
def leadsWith : List Char → List Char → Bool
  | _, [] => true
  | [], _ :: _ => false
  | c :: s, p :: ps => c == p && leadsWith s ps

/-- Which branch of `write_request_result_code` fires for a declared
result type. -/
def request_result_code (result : String) : ResultReaderCode :=
  if leadsWith result.data "Vector<".data then
    if result == "Vector<int>" then ResultReaderCode.vecIntSpecial
    else if result == "Vector<long>" then ResultReaderCode.vecLongSpecial
    else ResultReaderCode.tgreadVectorCall
  else ResultReaderCode.tgreadObjectCall

/-- `on_response` is only emitted for functions whose declared result is
not boxed (`tlobject.is_function and not TLGenerator._is_boxed(...)`);
boxed results keep the inherited default. -/
def generates_on_response (e : TLObject) : Bool :=
  e.is_function && (is_boxed e.result.data == some false)

/-- Read `count` 32-bit signed integers. -/
def readIntList (count : Nat) (input : List Nat) : Option (List Int × List Nat) :=
  match count with
  | 0 => some ([], input)
  | c + 1 => do
    let (bs, r1) ← readBytes 4 input
    let (rest, r2) ← readIntList c r1
    pure (toSigned 4 (bytesToNat bs) :: rest, r2)

/-- Read `count` 64-bit signed integers. -/
def readLongList (count : Nat) (input : List Nat) : Option (List Int × List Nat) :=
  match count with
  | 0 => some ([], input)
  | c + 1 => do
    let (bs, r1) ← readBytes 8 input
    let (rest, r2) ← readLongList c r1
    pure (toSigned 8 (bytesToNat bs) :: rest, r2)

/-- The `Vector<int>` branch of the generated `on_response`:
`reader.read_int()  # Vector ID` (consumed and discarded), then
`count = reader.read_int()`, then `count` 32-bit integers. -/
def readVecIntResult (input : List Nat) : Option (List Int × List Nat) := do
  let (_, r1) ← readBytes 4 input
  let (cb, r2) ← readBytes 4 r1
  readIntList (toSigned 4 (bytesToNat cb)).toNat r2

/-- The `Vector<long>` branch of the generated `on_response`:
`reader.read_int()  # Vector ID` discarded, then
`count = reader.read_long()` — an 8-byte count — then `count` 64-bit
integers. -/
def readVecLongResult (input : List Nat) : Option (List Int × List Nat) := do
  let (_, r1) ← readBytes 4 input
  let (cb, r2) ← readBytes 8 r1
  readLongList (toSigned 8 (bytesToNat cb)).toNat r2

/-- What the specification claims for a `Vector<int>` response: a raw
count-prefixed list with *no* leading vector marker and a 32-bit
count. -/
def readVecIntResultSpec (input : List Nat) : Option (List Int × List Nat) := do
  let (cb, r1) ← readBytes 4 input
  readIntList (toSigned 4 (bytesToNat cb)).toNat r1

/-- What the specification claims for a `Vector<long>` response: no
marker, 32-bit count, 64-bit elements. -/
def readVecLongResultSpec (input : List Nat) : Option (List Int × List Nat) := do
  let (cb, r1) ← readBytes 4 input
  readLongList (toSigned 4 (bytesToNat cb)).toNat r1


mutual

/-- Structural size of a value (used as an induction measure). -/
def vsize : Val → Nat
  | .obj _ flds => 1 + vsizes flds
  | .vec xs => 1 + vsizes xs
  | _ => 1

/-- Structural size of a value list. -/
def vsizes : List Val → Nat
  | [] => 1
  | v :: rest => 1 + vsize v + vsizes rest

end

/-! ### Amended boxed/bare rule and concrete sample schemas -/

/-- First occurrence of a character, expressed through `List.findIdx?`
(`-1` when absent); used to state the amended boxed/bare rule. -/
def firstIdx (s : List Char) (c : Char) : Int :=
  match s.findIdx? (fun x => x = c) with
  | some i => (i : Int)
  | Option.none => -1

/-- The amended boxed/bare rule: inspect the character immediately after
the later of the *first* occurrence of `'<'` and the *first* occurrence
of `'.'` (each position `-1` when the character is absent); uppercase
means boxed, reading past the end of the string is an error. -/
def boxedRuleAmended (t : List Char) : Option Bool :=
  match t.get? (max (firstIdx t '<') (firstIdx t '.') + 1).toNat with
  | some ch => some ch.isUpper
  | Option.none => Option.none

/-- Sample flag-indicator argument (`flags:#`). -/
def argFlags : TLArg :=
  ⟨"flags", "#", false, false, false, 0, true, false, false, false⟩

/-- Sample optional string field (`nick:flags.0?string`). -/
def argNick : TLArg :=
  ⟨"nick", "string", false, false, true, 0, false, false, false, false⟩

/-- Sample presence-only flag (`verified:flags.1?true`). -/
def argVerified : TLArg :=
  ⟨"verified", "true", false, false, true, 1, false, false, false, false⟩

/-- Sample optional boolean field (`mutual_contact:flags.2?Bool`). -/
def argMutual : TLArg :=
  ⟨"mutual_contact", "Bool", false, false, true, 2, false, false, false, false⟩

/-- Sample required int field (`age:int`). -/
def argAge : TLArg :=
  ⟨"age", "int", false, false, false, 0, false, false, false, false⟩

/-- Sample entity with a flag indicator and three optional fields. -/
def entUser : TLObject :=
  ⟨7, "user", Option.none, "User", false,
    [argFlags, argNick, argVerified, argMutual, argAge]⟩

/-- Sample one-entity schema. -/
def schUser : Schema := [entUser]

/-- Instance of `entUser` with every optional field present. -/
def fldsGood : List Val :=
  [Val.none, Val.vstr [104, 105], Val.vbool true, Val.vbool true, Val.vint 30]

/-- Instance of `entUser` with `nick`/`verified` absent as `None` and
`mutual_contact` absent as `False`. -/
def fldsBad : List Val :=
  [Val.none, Val.none, Val.none, Val.vbool false, Val.vint 30]

/-- Sample bare-record entity (`point#3 x:int = Point`). -/
def entPoint : TLObject :=
  ⟨3, "point", Option.none, "Point", false,
    [⟨"x", "int", false, false, false, 0, false, false, false, false⟩]⟩

/-- Sample schema holding only `entPoint`. -/
def schPts : Schema := [entPoint]

/-- Sample boxed-element vector argument (`ps:Vector<Point>`). -/
def argPs : TLArg :=
  ⟨"ps", "Vector<Point>", true, true, false, 0, false, false, false, false⟩

/-- Sample bare nested field (`p:point`, `skip_constructor_id` set). -/
def argBareP : TLArg :=
  ⟨"p", "point", false, false, false, 0, false, false, false, true⟩

/-- First member of a co-dependent flag group (`a:flags.0?Bool`). -/
def argFb1 : TLArg :=
  ⟨"a", "Bool", false, false, true, 0, false, false, false, false⟩

/-- Second member of the same co-dependent flag group (`b:flags.0?Bool`). -/
def argFb2 : TLArg :=
  ⟨"b", "Bool", false, false, true, 0, false, false, false, false⟩

/-- Sample entity with a two-member co-dependent flag group. -/
def entBoth : TLObject :=
  ⟨11, "both", Option.none, "Both", false, [argFlags, argFb1, argFb2]⟩

/-- Sample schema holding only `entBoth`. -/
def schBoth : Schema := [entBoth]

/-- Instance of `entBoth` with a strict non-empty subset of the group
present: `a` is `True` (present) while `b` is `False` (absent in the
`__bytes__` presence sense, but *not* `None`). -/
def fldsBoth : List Val := [Val.none, Val.vbool true, Val.vbool false]

/-- Two constructors for the namespaced result type `ns.Thing`. -/
def entNs1 : TLObject := ⟨21, "thing", some "ns", "ns.Thing", false, []⟩

/-- Second constructor for `ns.Thing`. -/
def entNs2 : TLObject := ⟨22, "thing2", some "ns", "ns.Thing", false, []⟩

/-- Sample schema with a two-constructor namespaced result type. -/
def schNs : Schema := [entNs1, entNs2]

/-- Two sample entities sharing the constructor id `5`. -/
def entDup1 : TLObject := ⟨5, "first", Option.none, "A", false, []⟩

/-- Second entity with the duplicated id. -/
def entDup2 : TLObject := ⟨5, "second", Option.none, "B", false, []⟩

/-- Sample schema with a duplicated constructor id. -/
def schDup : Schema := [entDup1, entDup2]

/-- Inferrable vector argument (`random_id:Vector<long>`,
`can_be_inferred`). -/
def argRandomIds : TLArg :=
  ⟨"random_id", "long", true, false, false, 0, false, false, true, false⟩

/-- A vector-typed reference field that is *not* literally named `id`. -/
def argPeers : TLArg :=
  ⟨"peers", "InputPeer", true, true, false, 0, false, false, false, false⟩

/-- A vector-typed field literally named `id`. -/
def argIdVec : TLArg :=
  ⟨"id", "long", true, true, false, 0, false, false, false, false⟩

/-- Second constructor for the result type `Point`. -/
def entPoint2 : TLObject :=
  ⟨4, "pointAlt", Option.none, "Point", false,
    [⟨"y", "int", false, false, false, 0, false, false, false, false⟩]⟩

/-- Sample schema in which `Point` has two constructors. -/
def schPts2 : Schema := [entPoint, entPoint2]

/-- Sample entity wrapping a *bare* nested `point`
(`wrap#d p:point = Wrap` with `skip_constructor_id` on `p`). -/
def entWrap : TLObject :=
  ⟨13, "wrap", Option.none, "Wrap", false, [argBareP]⟩

/-- Sample schema holding `entPoint` and its bare wrapper. -/
def schWrap : Schema := [entPoint, entWrap]

/-! ## Part 2: theorems -/

theorem byteLE_length (k n : Nat) : (byteLE k n).length = k := by
  induction k generalizing n with
  | zero => rfl
  | succ k ih => simp [byteLE, ih]

theorem bytesToNat_byteLE (k n : Nat) :
    bytesToNat (byteLE k n) = n % 256 ^ k := by
  induction k generalizing n with
  | zero => simp [byteLE, bytesToNat, Nat.mod_one]
  | succ k ih =>
    simp only [byteLE, bytesToNat, ih]
    rw [pow_succ, mul_comm (256 ^ k) 256, Nat.mod_mul]

theorem bytesToNat_byteLE_of_lt {k n : Nat} (h : n < 256 ^ k) :
    bytesToNat (byteLE k n) = n := by
  rw [bytesToNat_byteLE, Nat.mod_eq_of_lt h]

theorem two_dvd_pow_256 {k : Nat} (hk : 0 < k) : 2 ∣ 256 ^ k :=
  dvd_pow (by norm_num) (Nat.pos_iff_ne_zero.mp hk)

theorem toSigned_packSigned {k : Nat} (hk : 0 < k) {n : Int}
    (hlo : -((256 ^ k / 2 : Nat) : Int) ≤ n)
    (hhi : n < ((256 ^ k / 2 : Nat) : Int)) :
    ∃ bs, packSigned k n = some bs ∧ bs.length = k ∧
      toSigned k (bytesToNat bs) = n := by
  have hM : (256 ^ k / 2) * 2 = 256 ^ k := Nat.div_mul_cancel (two_dvd_pow_256 hk)
  set H : Nat := 256 ^ k / 2 with hH
  have hM' : ((256 ^ k : Nat) : Int) = 2 * (H : Int) := by
    push_cast [← hM]; ring
  have hcond : -((256 ^ k / 2 : Nat) : Int) ≤ n ∧ n < ((256 ^ k / 2 : Nat) : Int) :=
    ⟨hlo, hhi⟩
  refine ⟨byteLE k (n.emod ((256 ^ k : Nat) : Int)).toNat, by
      simp only [packSigned]; rw [if_pos hcond], byteLE_length _ _, ?_⟩
  have hMpos : (0 : Int) < ((256 ^ k : Nat) : Int) := by
    have : 0 < 256 ^ k := Nat.pos_pow_of_pos k (by norm_num)
    exact_mod_cast this
  have hemod : n.emod ((256 ^ k : Nat) : Int) =
      if 0 ≤ n then n else n + ((256 ^ k : Nat) : Int) := by
    split
    · exact Int.emod_eq_of_lt (by assumption) (by omega)
    · have h1 : (n + ((256 ^ k : Nat) : Int)).emod ((256 ^ k : Nat) : Int) =
          n.emod ((256 ^ k : Nat) : Int) := by
        have h2 := Int.add_mul_emod_self_left n ((256 ^ k : Nat) : Int) 1
        rw [mul_one] at h2
        exact h2
      rw [← h1]
      exact Int.emod_eq_of_lt (by omega) (by omega)
  have hrange : 0 ≤ n.emod ((256 ^ k : Nat) : Int) ∧
      n.emod ((256 ^ k : Nat) : Int) < ((256 ^ k : Nat) : Int) := by
    rw [hemod]; split <;> omega
  have htn : ((n.emod ((256 ^ k : Nat) : Int)).toNat : Int) =
      n.emod ((256 ^ k : Nat) : Int) := Int.toNat_of_nonneg hrange.1
  have hlt : (n.emod ((256 ^ k : Nat) : Int)).toNat < 256 ^ k := by
    have := hrange.2; omega
  rw [bytesToNat_byteLE_of_lt hlt, toSigned]
  rw [show (256 : Nat) ^ k / 2 = H from rfl]
  by_cases hpos : 0 ≤ n
  · have : n.emod ((256 ^ k : Nat) : Int) = n := by rw [hemod]; simp [hpos]
    rw [this] at htn ⊢
    have hlt' : (n.toNat : Int) < (H : Int) := by omega
    have : n.toNat < H := by exact_mod_cast hlt'
    simp [this, Int.toNat_of_nonneg hpos]
  · have hneg : n.emod ((256 ^ k : Nat) : Int) = n + ((256 ^ k : Nat) : Int) := by
      rw [hemod]; simp [hpos]
    rw [hneg] at htn ⊢
    have hge : ¬ ((n + ((256 ^ k : Nat) : Int)).toNat < H) := by omega
    simp only [if_neg hge]
    omega


theorem val_beq_eq : ∀ a b : Val, Val.beq a b = true ↔ a = b := by
  have H : ∀ n : Nat,
      (∀ a b : Val, vsize a ≤ n → (Val.beq a b = true ↔ a = b)) ∧
      (∀ xs ys : List Val, vsizes xs ≤ n → (Val.beqs xs ys = true ↔ xs = ys)) := by
    intro n
    induction n with
    | zero =>
      constructor
      · intro a b hs; cases a <;> simp [vsize] at hs
      · intro xs ys hs; cases xs <;> simp [vsizes] at hs
    | succ n ih =>
      constructor
      · intro a b hs
        cases a <;> cases b <;> simp only [Val.beq] <;> try simp
        case obj.obj c f d g =>
          have hf : vsizes f ≤ n := by simp only [vsize] at hs; omega
          simp [ih.2 f g hf]
        case vec.vec f g =>
          have hf : vsizes f ≤ n := by simp only [vsize] at hs; omega
          simp [ih.2 f g hf]
      · intro xs ys hs
        cases xs <;> cases ys <;> simp only [Val.beqs] <;> try simp
        case cons.cons x xs' y ys' =>
          have hx : vsize x ≤ n := by simp only [vsizes] at hs; omega
          have hxs : vsizes xs' ≤ n := by simp only [vsizes] at hs; omega
          simp [ih.1 x y hx, ih.2 xs' ys' hxs]
  intro a b
  exact (H (vsize a)).1 a b le_rfl

instance : LawfulBEq Val where
  eq_of_beq h := (val_beq_eq _ _).mp h
  rfl := (val_beq_eq _ _).mpr rfl

instance : DecidableEq Val := fun a b => decidable_of_iff _ (val_beq_eq a b)

/-! ### Byte-level helper lemmas -/

theorem readBytes_exact {k : Nat} {l r : List Nat} (h : l.length = k) :
    readBytes k (l ++ r) = some (l, r) := by
  have hk : k ≤ (l ++ r).length := by
    rw [List.length_append]
    omega
  unfold readBytes
  rw [if_pos hk, List.take_left' h, List.drop_left' h]

theorem lookupCid_mem {sch : Schema} {cid : Nat} {e : TLObject}
    (h : lookupCid sch cid = some e) : e ∈ sch ∧ e.id = cid := by
  unfold lookupCid at h
  have hmem : e ∈ sch.filter (fun x => x.id == cid) := by
    have hne : sch.filter (fun x => x.id == cid) ≠ [] := by
      intro hnil
      rw [hnil] at h
      simp at h
    rw [List.getLast?_eq_getLast _ hne] at h
    have he : e = (sch.filter (fun x => x.id == cid)).getLast hne := by
      injection h with h'
      exact h'.symm
    rw [he]
    exact List.getLast_mem hne
  have h1 := List.mem_filter.mp hmem
  refine ⟨h1.1, ?_⟩
  have := h1.2
  simpa using this

theorem packSigned_roundtrip {k : Nat} (hk : 0 < k) {n : Int}
    (hlo : -((256 ^ k / 2 : Nat) : Int) ≤ n)
    (hhi : n < ((256 ^ k / 2 : Nat) : Int)) (rest : List Nat) :
    ∃ bs, packSigned k n = some bs ∧
      readBytes k (bs ++ rest) = some (bs, rest) ∧
      toSigned k (bytesToNat bs) = n := by
  obtain ⟨bs, h1, h2, h3⟩ := toSigned_packSigned hk hlo hhi
  exact ⟨bs, h1, readBytes_exact h2, h3⟩

theorem packU32_roundtrip {n : Nat} (h : n < 256 ^ 4) (rest : List Nat) :
    packU32 n = some (byteLE 4 n) ∧
      readBytes 4 (byteLE 4 n ++ rest) = some (byteLE 4 n, rest) ∧
      bytesToNat (byteLE 4 n) = n := by
  exact ⟨by unfold packU32; rw [if_pos h], readBytes_exact (byteLE_length 4 n),
    bytesToNat_byteLE_of_lt h⟩

theorem serializeBytes_roundtrip {s : List Nat} (h : s.length < 256 ^ 3)
    (rest : List Nat) :
    ∃ frame, serializeBytes s = some frame ∧
      tgreadBytesFrame (frame ++ rest) = some (s, rest) := by
  by_cases hshort : s.length < 254
  · refine ⟨[s.length] ++ s ++ List.replicate ((4 - (1 + s.length) % 4) % 4) 0, by
      unfold serializeBytes; rw [if_pos hshort], ?_⟩
    have h1 := readBytes_exact (l := [s.length])
      (r := s ++ (List.replicate ((4 - (1 + s.length) % 4) % 4) 0 ++ rest)) rfl
    have h2 := readBytes_exact (l := s)
      (r := List.replicate ((4 - (1 + s.length) % 4) % 4) 0 ++ rest) rfl
    have h3 := readBytes_exact
      (l := List.replicate ((4 - (1 + s.length) % 4) % 4) 0) (r := rest)
      (List.length_replicate _ _)
    have hne : ¬ (s.length = 254) := by omega
    simp at h1 h2 h3
    simp [tgreadBytesFrame, h1, h2, h3, hne]
  · refine ⟨[254] ++ byteLE 3 s.length ++ s ++
      List.replicate ((4 - (4 + s.length) % 4) % 4) 0, by
        unfold serializeBytes; rw [if_neg hshort, if_pos h], ?_⟩
    have h1 := readBytes_exact (l := [254])
      (r := byteLE 3 s.length ++ (s ++
        (List.replicate ((4 - (4 + s.length) % 4) % 4) 0 ++ rest))) rfl
    have h2 := readBytes_exact (l := byteLE 3 s.length)
      (r := s ++ (List.replicate ((4 - (4 + s.length) % 4) % 4) 0 ++ rest))
      (byteLE_length 3 _)
    have hlen : bytesToNat (byteLE 3 s.length) = s.length :=
      bytesToNat_byteLE_of_lt h
    have h3 := readBytes_exact (l := s)
      (r := List.replicate ((4 - (4 + s.length) % 4) % 4) 0 ++ rest) rfl
    have h4 := readBytes_exact
      (l := List.replicate ((4 - (4 + s.length) % 4) % 4) 0) (r := rest)
      (List.length_replicate _ _)
    simp at h1 h2 h3 h4
    simp [tgreadBytesFrame, h1, h2, hlen, h3, h4]

/-! ### Bitmask lemmas -/

theorem and_one_shift_ne (m k : Nat) :
    (m &&& (1 <<< k) != 0) = m.testBit k := by
  have h1 : (1 : Nat) <<< k = 2 ^ k := by rw [Nat.shiftLeft_eq, one_mul]
  rw [h1, Nat.and_two_pow]
  cases h : m.testBit k <;> simp [h]

theorem maskOf_testBit (ctx : List (TLArg × Val)) (k : Nat) :
    (maskOf ctx).testBit k =
      ctx.any (fun p => p.1.is_flag && p.1.flag_index == k && presentV p.2) := by
  induction ctx with
  | nil => simp [maskOf]
  | cons p rest ih =>
    by_cases hf : p.1.is_flag
    · simp only [maskOf, List.foldr_cons, hf, if_true, List.any_cons]
      rw [Nat.testBit_lor]
      by_cases hp : presentV p.2
      · simp only [hp, if_true]
        by_cases hk : p.1.flag_index = k
        · subst hk
          rw [show (1 : Nat) <<< p.1.flag_index = 2 ^ p.1.flag_index by
            rw [Nat.shiftLeft_eq, one_mul]]
          simp [hf, hp, Nat.testBit_two_pow_self]
        · rw [show (1 : Nat) <<< p.1.flag_index = 2 ^ p.1.flag_index by
            rw [Nat.shiftLeft_eq, one_mul]]
          rw [Nat.testBit_two_pow_of_ne hk]
          simp only [maskOf] at ih
          simp [hf, hp, hk, ih]
      · simp only [hp, if_false]
        simp only [maskOf] at ih
        simp [hf, hp, Nat.zero_testBit, ih]
    · simp only [maskOf, List.foldr_cons, hf, if_false, List.any_cons]
      simp only [maskOf] at ih
      simp [hf, ih]

theorem maskOf_lt (ctx : List (TLArg × Val))
    (h : ∀ p ∈ ctx, p.1.flag_index < 32) : maskOf ctx < 2 ^ 32 := by
  induction ctx with
  | nil => simp [maskOf]
  | cons p rest ih =>
    have hrest : maskOf rest < 2 ^ 32 := ih (fun q hq => h q (List.mem_cons_of_mem _ hq))
    simp only [maskOf, List.foldr_cons]
    split
    · have hbit : (if presentV p.2 then 1 <<< p.1.flag_index else 0) < 2 ^ 32 := by
        split
        · rw [Nat.shiftLeft_eq, one_mul]
          exact Nat.pow_lt_pow_right (by omega) (h p (List.mem_cons_self _ _))
        · positivity
      exact Nat.bitwise_lt_two_pow hbit hrest
    · exact hrest

theorem maskOf_no_flags (ctx : List (TLArg × Val))
    (h : (ctx.map Prod.fst).any (fun f => f.is_flag) = false) : maskOf ctx = 0 := by
  induction ctx with
  | nil => simp [maskOf]
  | cons p rest ih =>
    simp only [List.map_cons, List.any_cons, Bool.or_eq_false_iff] at h
    simp only [maskOf, List.foldr_cons, h.1, if_false]
    simpa only [maskOf] using ih h.2

theorem flagConsistent_assertOK {ctx : List (TLArg × Val)}
    (h : flagConsistent ctx = true) : assertOK ctx = true := by
  simp only [flagConsistent, List.all_eq_true] at h
  simp only [assertOK, List.all_eq_true]
  intro i hi
  have hgroup := h i hi
  simp only [Bool.or_eq_true] at hgroup ⊢
  rcases hgroup with hall | hnone
  · refine Or.inl (Or.inr ?_)
    simp only [List.all_eq_true] at hall ⊢
    intro p hp
    have := hall p hp
    simp only [presentV, cnd1, Bool.not_eq_true'] at this ⊢
    simp only [Bool.or_eq_false_iff] at this
    simp [this.1]
  · refine Or.inr ?_
    simp only [List.all_eq_true] at hnone ⊢
    intro p hp
    have := hnone p hp
    simp only [presentV, cnd2, Bool.not_eq_true] at this ⊢
    simpa using this

theorem flagConsistent_bit {ctx : List (TLArg × Val)} {p : TLArg × Val}
    (hcons : flagConsistent ctx = true) (hmem : p ∈ ctx)
    (hflag : p.1.is_flag = true) :
    (maskOf ctx).testBit p.1.flag_index = presentV p.2 := by
  rw [maskOf_testBit]
  have hidx : p.1.flag_index ∈ flagIndices (ctx.map Prod.fst) := by
    simp only [flagIndices, List.mem_dedup, List.mem_map, List.mem_filter,
      List.mem_map]
    exact ⟨p.1, ⟨⟨p, hmem, rfl⟩, hflag⟩, rfl⟩
  simp only [flagConsistent, List.all_eq_true] at hcons
  have hgroup := hcons _ hidx
  simp only [Bool.or_eq_true, List.all_eq_true] at hgroup
  by_cases hp : presentV p.2
  · rw [hp, List.any_eq_true]
    exact ⟨p, hmem, by simp [hflag, hp]⟩
  · rw [Bool.not_eq_true] at hp
    rw [hp, List.any_eq_false]
    intro q hq
    simp only [Bool.and_eq_true, beq_iff_eq, not_and]
    intro ⟨hqf, hqi⟩
    rcases hgroup with hall | hnone
    · have := hall p (List.mem_filter.mpr ⟨hmem, by simp [hflag]⟩)
      rw [hp] at this
      exact absurd this (by simp)
    · have := hnone q (List.mem_filter.mpr ⟨hq, by simp [hqf, hqi]⟩)
      simpa using this


/-! ### Hand-proved unfolding equations

The mutual structural recursions over the nested `Val` family do not
reduce on variables, and the automatically generated equations exceed
the simplifier's step limit, so the one-step unfoldings are stated and
proved here by case analysis (each case holds by `rfl`). -/

theorem write_to_bytes_unfold (sch : Schema) (a : TLArg) (v : Val)
    (ctx : List (TLArg × Val)) :
    write_to_bytes sch a v ctx =
      (if a.generic_definition then some []
      else if a.is_flag && a.type == "true" then some []
      else if a.is_flag && cnd2 v then some []
      else if a.is_vector then
        match v with
        | .vec xs => do
          let count ← packSigned 4 (xs.length : Int)
          let body ←
            writeVecElems sch { a with is_vector := false, is_flag := false } xs ctx
          pure ((if a.use_vector_id then vectorIdBytes else []) ++ count ++ body)
        | _ => Option.none
      else if a.flag_indicator then
        if (ctx.map Prod.fst).any (fun f => f.is_flag) then packU32 (maskOf ctx)
        else some [0, 0, 0, 0]
      else if isPrimitiveType a.type then
        writePrim a.type v
      else
        match v with
        | .obj cid flds =>
          match lookupCid sch cid with
          | some e =>
            if flds.length == e.args.length && assertOK (e.args.zip flds) then do
              let hd ← packU32 e.id
              let body ← writeArgsJoin sch e.args flds (e.args.zip flds)
              pure (hd ++ body)
            else Option.none
          | Option.none => Option.none
        | _ => Option.none) := by
  cases v <;> rfl

theorem writeVecElems_unfold (sch : Schema) (a : TLArg) (xs : List Val)
    (ctx : List (TLArg × Val)) :
    writeVecElems sch a xs ctx =
      (match xs with
      | [] => some []
      | x :: rest => do
        let h ← write_to_bytes sch a x ctx
        let r ← writeVecElems sch a rest ctx
        pure (h ++ r)) := by
  cases xs <;> rfl

theorem writeArgsJoin_unfold (sch : Schema) (args : List TLArg) (vs : List Val)
    (ctx : List (TLArg × Val)) :
    writeArgsJoin sch args vs ctx =
      (match args, vs with
      | [], [] => some []
      | a :: as', v :: vs' => do
        let h ← write_to_bytes sch a v ctx
        let r ← writeArgsJoin sch as' vs' ctx
        pure (h ++ r)
      | _, _ => Option.none) := by
  cases args <;> cases vs <;> rfl

theorem wtArg_unfold (sch : Schema) (a : TLArg) (v : Val) :
    wtArg sch a v =
      (if a.generic_definition then v == Val.none
      else if a.is_flag && a.type == "true" then
        v == Val.none || v == Val.vbool true || v == Val.vbool false
      else if a.is_flag && cnd2 v then true
      else if a.is_vector then
        match v with
        | .vec xs =>
          !a.flag_indicator && decide (xs.length < 2 ^ 31) &&
            wtVecElems sch { a with is_vector := false, is_flag := false } xs
        | _ => false
      else if a.flag_indicator then v == Val.none
      else if isPrimitiveType a.type then wtPrim a.type v
      else
        match v with
        | .obj cid flds =>
          !a.skip_constructor_id &&
            match lookupCid sch cid with
            | some e =>
              flds.length == e.args.length && entityWF e &&
                flagConsistent (e.args.zip flds) && wtArgsList sch e.args flds
            | Option.none => false
        | _ => false) := by
  cases v <;> rfl

theorem wtVecElems_unfold (sch : Schema) (a : TLArg) (xs : List Val) :
    wtVecElems sch a xs =
      (match xs with
      | [] => true
      | x :: rest => wtArg sch a x && wtVecElems sch a rest) := by
  cases xs <;> rfl

theorem wtArgsList_unfold (sch : Schema) (args : List TLArg) (vs : List Val) :
    wtArgsList sch args vs =
      (match args, vs with
      | [], [] => true
      | a :: as', v :: vs' => wtArg sch a v && wtArgsList sch as' vs'
      | _, _ => false) := by
  cases args <;> cases vs <;> rfl

theorem canonArg_unfold (sch : Schema) (a : TLArg) (v : Val) :
    canonArg sch a v =
      (if a.generic_definition then Val.none
      else if a.is_flag && a.type == "true" then Val.vbool (presentV v)
      else if a.is_flag && cnd2 v then Val.none
      else if a.is_vector then
        match v with
        | .vec xs =>
          Val.vec (canonVecElems sch { a with is_vector := false, is_flag := false } xs)
        | _ => v
      else if a.flag_indicator then Val.none
      else if a.type == "true" then Val.vbool true
      else if isPrimitiveType a.type then v
      else
        match v with
        | .obj cid flds =>
          match lookupCid sch cid with
          | some e => Val.obj cid (canonArgsList sch e.args flds)
          | Option.none => v
        | _ => v) := by
  cases v <;> rfl

theorem canonVecElems_unfold (sch : Schema) (a : TLArg) (xs : List Val) :
    canonVecElems sch a xs =
      (match xs with
      | [] => []
      | x :: rest => canonArg sch a x :: canonVecElems sch a rest) := by
  cases xs <;> rfl

theorem canonArgsList_unfold (sch : Schema) (args : List TLArg) (vs : List Val) :
    canonArgsList sch args vs =
      (match args, vs with
      | a :: as', v :: vs' => canonArg sch a v :: canonArgsList sch as' vs'
      | _, _ => []) := by
  cases args <;> cases vs <;> rfl

theorem write_read_code_unfold (fuel : Nat) (sch : Schema) (a : TLArg)
    (flagsSt : Option Nat) (input : List Nat) :
    write_read_code fuel sch a flagsSt input =
      (match fuel with
      | 0 => Option.none
      | fuel + 1 =>
        if a.generic_definition then some (Val.none, flagsSt, input)
        else if a.is_flag && a.type == "true" then
          match flagsSt with
          | some f => some (Val.vbool (f &&& (1 <<< a.flag_index) != 0), flagsSt, input)
          | Option.none => Option.none
        else if a.is_flag then
          match flagsSt with
          | some f =>
            if f &&& (1 <<< a.flag_index) != 0 then
              write_read_code fuel sch { a with is_flag := false } flagsSt input
            else some (Val.none, flagsSt, input)
          | Option.none => Option.none
        else if a.is_vector then do
          let (_, r0) ←
            if a.use_vector_id then readBytes 4 input else some ([], input)
          let (cb, r1) ← readBytes 4 r0
          let count := toSigned 4 (bytesToNat cb)
          let (xs, fl', r2) ←
            readVecElems fuel sch { a with is_vector := false } count.toNat flagsSt r1
          pure (Val.vec xs, fl', r2)
        else if a.flag_indicator then do
          let (fb, rest) ← readBytes 4 input
          pure (Val.none, some (bytesToNat fb), rest)
        else if isPrimitiveType a.type then do
          let (v, rest) ← readPrim a.type input
          pure (v, flagsSt, rest)
        else if !a.skip_constructor_id then do
          let (ib, rest) ← readBytes 4 input
          let cid := bytesToNat ib
          match lookupCid sch cid with
          | some e => do
            let (vals, r2) ← readArgsList fuel sch e.args Option.none rest
            pure (Val.obj cid vals, flagsSt, r2)
          | Option.none => Option.none
        else
          match lookupByTypeName sch a.type with
          | some e => do
            let (vals, r2) ← readArgsList fuel sch e.args Option.none input
            pure (Val.obj e.id vals, flagsSt, r2)
          | Option.none => Option.none) := by
  cases fuel <;> rfl

theorem readVecElems_unfold (fuel : Nat) (sch : Schema) (a : TLArg)
    (count : Nat) (flagsSt : Option Nat) (input : List Nat) :
    readVecElems fuel sch a count flagsSt input =
      (match fuel with
      | 0 => Option.none
      | fuel + 1 =>
        match count with
        | 0 => some ([], flagsSt, input)
        | c + 1 => do
          let (v, fl', r1) ← write_read_code fuel sch a flagsSt input
          let (vs, fl'', r2) ← readVecElems fuel sch a c fl' r1
          pure (v :: vs, fl'', r2)) := by
  cases fuel <;> rfl

theorem readArgsList_unfold (fuel : Nat) (sch : Schema) (args : List TLArg)
    (flagsSt : Option Nat) (input : List Nat) :
    readArgsList fuel sch args flagsSt input =
      (match fuel with
      | 0 => Option.none
      | fuel + 1 =>
        match args with
        | [] => some ([], input)
        | a :: rest => do
          let (v, fl', r1) ← write_read_code fuel sch a flagsSt input
          let (vs, r2) ← readArgsList fuel sch rest fl' r1
          pure (v :: vs, r2)) := by
  cases fuel <;> rfl

/-! ### Stripping `is_flag` from a present flag argument

The source encodes a present flag argument by falling through the flag
wrapper into the ordinary branches, and decodes it by re-entering
`write_read_code` with `is_flag` disabled; the following lemmas record
that the encoder, the well-typedness predicate and the canonicalization
agree between the two views. -/

theorem write_to_bytes_strip_flag (sch : Schema) (a : TLArg) (v : Val)
    (ctx : List (TLArg × Val)) (hgen : a.generic_definition = false)
    (htype : (a.type == "true") = false) (habs : cnd2 v = false) :
    write_to_bytes sch a v ctx =
      write_to_bytes sch { a with is_flag := false } v ctx := by
  obtain ⟨nm, ty, isv, uvi, isf, fidx, find, gdef, cbi, skip⟩ := a
  replace hgen : gdef = false := hgen
  replace htype : (ty == "true") = false := htype
  rw [write_to_bytes_unfold, write_to_bytes_unfold]
  simp only [hgen, htype, habs, Bool.and_false, Bool.false_and,
    Bool.false_eq_true, if_false]


theorem wtArg_strip_flag (sch : Schema) (a : TLArg) (v : Val)
    (hgen : a.generic_definition = false)
    (htype : (a.type == "true") = false) (habs : cnd2 v = false) :
    wtArg sch a v = wtArg sch { a with is_flag := false } v := by
  obtain ⟨nm, ty, isv, uvi, isf, fidx, find, gdef, cbi, skip⟩ := a
  replace hgen : gdef = false := hgen
  replace htype : (ty == "true") = false := htype
  rw [wtArg_unfold, wtArg_unfold]
  simp only [hgen, htype, habs, Bool.and_false, Bool.false_and,
    Bool.false_eq_true, if_false]


theorem canonArg_strip_flag (sch : Schema) (a : TLArg) (v : Val)
    (hgen : a.generic_definition = false)
    (htype : (a.type == "true") = false) (habs : cnd2 v = false) :
    canonArg sch a v = canonArg sch { a with is_flag := false } v := by
  obtain ⟨nm, ty, isv, uvi, isf, fidx, find, gdef, cbi, skip⟩ := a
  replace hgen : gdef = false := hgen
  replace htype : (ty == "true") = false := htype
  rw [canonArg_unfold, canonArg_unfold]
  simp only [hgen, htype, habs, Bool.and_false, Bool.false_and,
    Bool.false_eq_true, if_false]


/-! ### Primitive round-trip -/

set_option maxRecDepth 16384 in
theorem prim_roundtrip {t : String} {v : Val}
    (hwt : wtPrim t v = true) (rest : List Nat) :
    ∃ bs, writePrim t v = some bs ∧
      readPrim t (bs ++ rest) = some (v, rest) := by
  by_cases h1 : t == "int"
  · unfold wtPrim at hwt
    rw [if_pos h1] at hwt
    cases v <;> simp at hwt
    rename_i n
    have hc : ((256 ^ 4 / 2 : Nat) : Int) = 2 ^ 31 := by norm_num
    obtain ⟨bs, hpack, hread, hval⟩ :=
      packSigned_roundtrip (k := 4) (by omega) (n := n)
        (by rw [hc]; exact_mod_cast hwt.1) (by rw [hc]; exact_mod_cast hwt.2) rest
    refine ⟨bs, ?_, ?_⟩
    · unfold writePrim
      rw [if_pos h1]
      exact hpack
    · unfold readPrim
      rw [if_pos h1]
      simp [hread, hval]
  · by_cases h2 : t == "long"
    · unfold wtPrim at hwt
      rw [if_neg h1, if_pos h2] at hwt
      cases v <;> simp at hwt
      rename_i n
      have hc : ((256 ^ 8 / 2 : Nat) : Int) = 2 ^ 63 := by norm_num
      obtain ⟨bs, hpack, hread, hval⟩ :=
        packSigned_roundtrip (k := 8) (by omega) (n := n)
          (by rw [hc]; exact_mod_cast hwt.1) (by rw [hc]; exact_mod_cast hwt.2) rest
      refine ⟨bs, ?_, ?_⟩
      · unfold writePrim
        rw [if_neg h1, if_pos h2]
        exact hpack
      · unfold readPrim
        rw [if_neg h1, if_pos h2]
        simp [hread, hval]
    · by_cases h3 : t == "int128"
      · unfold wtPrim at hwt
        rw [if_neg h1, if_neg h2, if_pos h3] at hwt
        cases v <;> simp at hwt
        rename_i n
        have hc : ((256 ^ 16 / 2 : Nat) : Int) = 2 ^ 127 := by norm_num
        obtain ⟨bs, hpack, hread, hval⟩ :=
          packSigned_roundtrip (k := 16) (by omega) (n := n)
            (by rw [hc]; exact_mod_cast hwt.1) (by rw [hc]; exact_mod_cast hwt.2) rest
        refine ⟨bs, ?_, ?_⟩
        · unfold writePrim
          rw [if_neg h1, if_neg h2, if_pos h3]
          exact hpack
        · unfold readPrim
          rw [if_neg h1, if_neg h2, if_pos h3]
          simp [hread, hval]
      · by_cases h4 : t == "int256"
        · unfold wtPrim at hwt
          rw [if_neg h1, if_neg h2, if_neg h3, if_pos h4] at hwt
          cases v <;> simp at hwt
          rename_i n
          have hc : ((256 ^ 32 / 2 : Nat) : Int) = 2 ^ 255 := by norm_num
          obtain ⟨bs, hpack, hread, hval⟩ :=
            packSigned_roundtrip (k := 32) (by omega) (n := n)
              (by rw [hc]; exact_mod_cast hwt.1) (by rw [hc]; exact_mod_cast hwt.2)
              rest
          refine ⟨bs, ?_, ?_⟩
          · unfold writePrim
            rw [if_neg h1, if_neg h2, if_neg h3, if_pos h4]
            exact hpack
          · unfold readPrim
            rw [if_neg h1, if_neg h2, if_neg h3, if_pos h4]
            simp [hread, hval]
        · by_cases h5 : t == "double"
          · unfold wtPrim at hwt
            rw [if_neg h1, if_neg h2, if_neg h3, if_neg h4, if_pos h5] at hwt
            cases v <;> simp at hwt
            rename_i bs
            refine ⟨bs, ?_, ?_⟩
            · unfold writePrim
              rw [if_neg h1, if_neg h2, if_neg h3, if_neg h4, if_pos h5]
              simp [hwt]
            · unfold readPrim
              rw [if_neg h1, if_neg h2, if_neg h3, if_neg h4, if_pos h5]
              simp [readBytes_exact hwt]
          · by_cases h6 : t == "string"
            · unfold wtPrim at hwt
              rw [if_neg h1, if_neg h2, if_neg h3, if_neg h4, if_neg h5,
                if_pos h6] at hwt
              cases v <;> simp at hwt
              rename_i str
              obtain ⟨frame, hser, hrd⟩ := serializeBytes_roundtrip hwt rest
              refine ⟨frame, ?_, ?_⟩
              · unfold writePrim
                rw [if_neg h1, if_neg h2, if_neg h3, if_neg h4, if_neg h5,
                  if_pos h6]
                exact hser
              · unfold readPrim
                rw [if_neg h1, if_neg h2, if_neg h3, if_neg h4, if_neg h5,
                  if_pos h6]
                simp [hrd]
            · by_cases h7 : t == "Bool"
              · unfold wtPrim at hwt
                rw [if_neg h1, if_neg h2, if_neg h3, if_neg h4, if_neg h5,
                  if_neg h6, if_pos h7] at hwt
                cases v <;> simp at hwt
                rename_i b
                refine ⟨if b then boolTrueBytes else boolFalseBytes, ?_, ?_⟩
                · unfold writePrim
                  rw [if_neg h1, if_neg h2, if_neg h3, if_neg h4, if_neg h5,
                    if_neg h6, if_pos h7]
                · unfold readPrim
                  rw [if_neg h1, if_neg h2, if_neg h3, if_neg h4, if_neg h5,
                    if_neg h6, if_pos h7]
                  cases b
                  · have hrd := readBytes_exact (k := 4) (l := boolFalseBytes)
                      (r := rest) (by decide)
                    simp [boolFalseBytes] at hrd
                    simp [tgreadBoolFrame, hrd, boolFalseBytes, boolTrueBytes]
                  · have hrd := readBytes_exact (k := 4) (l := boolTrueBytes)
                      (r := rest) (by decide)
                    simp [boolTrueBytes] at hrd
                    simp [tgreadBoolFrame, hrd, boolTrueBytes, boolFalseBytes]
              · by_cases h8 : t == "true"
                · unfold wtPrim at hwt
                  rw [if_neg h1, if_neg h2, if_neg h3, if_neg h4, if_neg h5,
                    if_neg h6, if_neg h7, if_pos h8] at hwt
                  have hv : v = Val.vbool true := by
                    have := (val_beq_eq v (Val.vbool true)).mp hwt
                    exact this
                  subst hv
                  refine ⟨[], ?_, ?_⟩
                  · unfold writePrim
                    rw [if_neg h1, if_neg h2, if_neg h3, if_neg h4, if_neg h5,
                      if_neg h6, if_neg h7, if_pos h8]
                  · unfold readPrim
                    rw [if_neg h1, if_neg h2, if_neg h3, if_neg h4, if_neg h5,
                      if_neg h6, if_neg h7, if_pos h8]
                    simp
                · by_cases h9 : t == "bytes"
                  · unfold wtPrim at hwt
                    rw [if_neg h1, if_neg h2, if_neg h3, if_neg h4, if_neg h5,
                      if_neg h6, if_neg h7, if_neg h8, if_pos h9] at hwt
                    cases v <;> simp at hwt
                    rename_i str
                    obtain ⟨frame, hser, hrd⟩ := serializeBytes_roundtrip hwt rest
                    refine ⟨frame, ?_, ?_⟩
                    · unfold writePrim
                      rw [if_neg h1, if_neg h2, if_neg h3, if_neg h4, if_neg h5,
                        if_neg h6, if_neg h7, if_neg h8, if_pos h9]
                      exact hser
                    · unfold readPrim
                      rw [if_neg h1, if_neg h2, if_neg h3, if_neg h4, if_neg h5,
                        if_neg h6, if_neg h7, if_neg h8, if_pos h9]
                      simp [hrd]
                  · by_cases h10 : t == "date"
                    · unfold wtPrim at hwt
                      rw [if_neg h1, if_neg h2, if_neg h3, if_neg h4, if_neg h5,
                        if_neg h6, if_neg h7, if_neg h8, if_neg h9,
                        if_pos h10] at hwt
                      cases v <;> simp at hwt
                      rename_i n
                      have hc : ((256 ^ 4 / 2 : Nat) : Int) = 2 ^ 31 := by norm_num
                      obtain ⟨bs, hpack, hread, hval⟩ :=
                        packSigned_roundtrip (k := 4) (by omega) (n := n)
                          (by rw [hc]; exact_mod_cast hwt.1)
                          (by rw [hc]; exact_mod_cast hwt.2) rest
                      refine ⟨bs, ?_, ?_⟩
                      · unfold writePrim serializeDate
                        rw [if_neg h1, if_neg h2, if_neg h3, if_neg h4, if_neg h5,
                          if_neg h6, if_neg h7, if_neg h8, if_neg h9, if_pos h10]
                        exact hpack
                      · unfold readPrim
                        rw [if_neg h1, if_neg h2, if_neg h3, if_neg h4, if_neg h5,
                          if_neg h6, if_neg h7, if_neg h8, if_neg h9, if_pos h10]
                        simp [hread, hval]
                    · unfold wtPrim at hwt
                      rw [if_neg h1, if_neg h2, if_neg h3, if_neg h4, if_neg h5,
                        if_neg h6, if_neg h7, if_neg h8, if_neg h9,
                        if_neg h10] at hwt
                      exact absurd hwt (by simp)

/-! ### The master round-trip induction -/

theorem presentV_eq_not_cnd2 (v : Val) : presentV v = !cnd2 v := rfl

theorem vsize_pos (v : Val) : 1 ≤ vsize v := by
  cases v <;> simp [vsize]

theorem vsizes_pos (xs : List Val) : 1 ≤ vsizes xs := by
  cases xs with
  | nil => rw [vsizes]
  | cons x r => rw [vsizes]; omega

theorem dneedV_ge (v : Val) : 3 ≤ dneedV v := by
  cases v <;> simp [dneedV]

/-- The bundle of round-trip statements, proved by strong induction on
the structural size of the value(s):
* `CORE`: one non-flag, non-generic argument;
* `ARG`: one arbitrary argument (flag wrapper included);
* `ELEMS`: the elements of one vector;
* `ARGS`: an entity's argument tail. -/
theorem roundtrip_bundle (sch : Schema) : ∀ n : Nat,
    (∀ (v : Val) (a : TLArg) (ctx : List (TLArg × Val)),
      vsize v ≤ n →
      a.generic_definition = false → a.is_flag = false →
      wtArg sch a v = true →
      (∀ p ∈ ctx, p.1.flag_index < 32) →
      ∃ bs, write_to_bytes sch a v ctx = some bs ∧
        ∀ fuel, dneedV v ≤ fuel → ∀ (flagsB : Option Nat) (rest : List Nat),
          write_read_code fuel sch a flagsB (bs ++ rest) =
            some (canonArg sch a v, flagsOutArg a ctx flagsB, rest)) ∧
    (∀ (v : Val) (a : TLArg) (ctx : List (TLArg × Val)) (flagsB : Option Nat),
      vsize v ≤ n →
      wtArg sch a v = true →
      (∀ p ∈ ctx, p.1.flag_index < 32) →
      (a.is_flag = true → flagsB = some (maskOf ctx) ∧ (a, v) ∈ ctx ∧
        flagConsistent ctx = true) →
      ∃ bs, write_to_bytes sch a v ctx = some bs ∧
        ∀ fuel, dneedV v + 1 ≤ fuel → ∀ rest,
          write_read_code fuel sch a flagsB (bs ++ rest) =
            some (canonArg sch a v, flagsOutArg a ctx flagsB, rest)) ∧
    (∀ (xs : List Val) (a : TLArg) (ctx : List (TLArg × Val)),
      vsizes xs ≤ n →
      a.is_vector = false → a.is_flag = false → a.generic_definition = false →
      a.flag_indicator = false →
      wtVecElems sch a xs = true →
      (∀ p ∈ ctx, p.1.flag_index < 32) →
      ∃ bs, writeVecElems sch a xs ctx = some bs ∧
        ∀ fuel, dneedEs xs ≤ fuel → ∀ (flagsB : Option Nat) (rest : List Nat),
          readVecElems fuel sch a xs.length flagsB (bs ++ rest) =
            some (canonVecElems sch a xs, flagsB, rest)) ∧
    (∀ (vs : List Val) (args : List TLArg) (ctx : List (TLArg × Val))
        (flagsB : Option Nat),
      vsizes vs ≤ n →
      wtArgsList sch args vs = true →
      (∀ p ∈ args.zip vs, p ∈ ctx) →
      (∀ p ∈ ctx, p.1.flag_index < 32) →
      flagConsistent ctx = true →
      (flagsB = some (maskOf ctx) ∨ flagsAfterIndicator args = true) →
      ∃ bs, writeArgsJoin sch args vs ctx = some bs ∧
        ∀ fuel, dneedVs vs ≤ fuel → ∀ rest,
          readArgsList fuel sch args flagsB (bs ++ rest) =
            some (canonArgsList sch args vs, rest)) := by
  intro n
  induction n using Nat.strong_induction_on with
  | _ n ih =>
  have hCORE : ∀ (v : Val) (a : TLArg) (ctx : List (TLArg × Val)),
      vsize v ≤ n →
      a.generic_definition = false → a.is_flag = false →
      wtArg sch a v = true →
      (∀ p ∈ ctx, p.1.flag_index < 32) →
      ∃ bs, write_to_bytes sch a v ctx = some bs ∧
        ∀ fuel, dneedV v ≤ fuel → ∀ (flagsB : Option Nat) (rest : List Nat),
          write_read_code fuel sch a flagsB (bs ++ rest) =
            some (canonArg sch a v, flagsOutArg a ctx flagsB, rest) := by
    intro v a ctx hsz hgen hnf hwt hctx
    obtain ⟨nm, ty, isv, uvi, isf, fidx, find, gdef, cbi, skip⟩ := a
    replace hgen : gdef = false := hgen
    replace hnf : isf = false := hnf
    subst hgen
    subst hnf
    rw [wtArg_unfold] at hwt
    rw [if_neg (by simp), if_neg (by simp), if_neg (by simp)] at hwt
    by_cases hvec : isv = true
    · -- vector argument
      rw [if_pos (by simp [hvec])] at hwt
      cases v <;> simp only [Bool.false_eq_true] at hwt
      rename_i xs
      simp only [Bool.and_eq_true, Bool.not_eq_true', decide_eq_true_eq] at hwt
      obtain ⟨⟨hfind, hlen⟩, hels⟩ := hwt
      subst hvec
      have hszeq : vsize (Val.vec xs) = 1 + vsizes xs := by rw [vsize]
      have hxs : vsizes xs ≤ n - 1 := by omega
      have hn : 1 ≤ n := by
        have := vsizes_pos xs
        omega
      obtain ⟨ebs, hee, hed⟩ := (ih (n - 1) (by omega)).2.2.1 xs
        ⟨nm, ty, false, uvi, false, fidx, find, false, cbi, skip⟩ ctx hxs rfl rfl rfl
        (by exact hfind) hels hctx
      have hc : ((256 ^ 4 / 2 : Nat) : Int) = 2 ^ 31 := by norm_num
      obtain ⟨cnt, hcp, hclen, hcv⟩ := toSigned_packSigned (k := 4) (by omega)
        (n := (xs.length : Int)) (by rw [hc]; omega)
        (by rw [hc]; exact_mod_cast hlen)
      by_cases huvi : uvi = true
      · subst huvi
        refine ⟨vectorIdBytes ++ cnt ++ ebs, ?_, ?_⟩
        · rw [write_to_bytes_unfold]
          simp [hcp, hee]
        · intro fuel hfuel flagsB rest
          have hdv : dneedV (Val.vec xs) = 3 + dneedEs xs := by rw [dneedV]
          cases fuel with
          | zero => omega
          | succ f =>
            rw [write_read_code_unfold, canonArg_unfold]
            have hed' := hed f (by omega) flagsB rest
            have hcnt0 : ((xs.length : Int)).toNat = xs.length := by omega
            have hrd0 := readBytes_exact (k := 4) (l := vectorIdBytes)
              (r := cnt ++ (ebs ++ rest)) (by decide)
            simp [flagsOutArg, List.append_assoc, hrd0, readBytes_exact hclen,
              hcv, hcnt0, hed']
      · have huvi' : uvi = false := by simpa using huvi
        subst huvi'
        refine ⟨cnt ++ ebs, ?_, ?_⟩
        · rw [write_to_bytes_unfold]
          simp [hcp, hee]
        · intro fuel hfuel flagsB rest
          have hdv : dneedV (Val.vec xs) = 3 + dneedEs xs := by rw [dneedV]
          cases fuel with
          | zero => omega
          | succ f =>
            rw [write_read_code_unfold, canonArg_unfold]
            have hed' := hed f (by omega) flagsB rest
            have hcnt0 : ((xs.length : Int)).toNat = xs.length := by omega
            simp [flagsOutArg, List.append_assoc, readBytes_exact hclen,
              hcv, hcnt0, hed']
    · -- not a vector
      have hvec' : isv = false := by simpa using hvec
      subst hvec'
      rw [if_neg (by simp)] at hwt
      by_cases hind : find = true
      · -- flag indicator
        subst hind
        rw [if_pos (by simp)] at hwt
        have hv : v = Val.none := by
          have := (val_beq_eq v Val.none).mp hwt
          exact this
        subst hv
        have hm : maskOf ctx < 256 ^ 4 := by
          have := maskOf_lt ctx hctx
          omega
        have hd3 : dneedV Val.none = 3 := rfl
        by_cases hany : (ctx.map Prod.fst).any (fun f => f.is_flag) = true
        · obtain ⟨hp, _, hbn⟩ := packU32_roundtrip hm []
          refine ⟨byteLE 4 (maskOf ctx), ?_, ?_⟩
          · rw [write_to_bytes_unfold]
            simp [hany, hp]
          · intro fuel hfuel flagsB rest
            cases fuel with
            | zero => omega
            | succ f =>
              rw [write_read_code_unfold, canonArg_unfold]
              simp [flagsOutArg,
                readBytes_exact (byteLE_length 4 (maskOf ctx)), hbn]
        · have hany' : (ctx.map Prod.fst).any (fun f => f.is_flag) = false := by
            simpa using hany
          have h0 : maskOf ctx = 0 := maskOf_no_flags ctx hany'
          refine ⟨[0, 0, 0, 0], ?_, ?_⟩
          · rw [write_to_bytes_unfold]
            simp [hany']
          · intro fuel hfuel flagsB rest
            cases fuel with
            | zero => omega
            | succ f =>
              rw [write_read_code_unfold, canonArg_unfold]
              have hrd := readBytes_exact (k := 4) (l := [0, 0, 0, 0])
                (r := rest) (by decide)
              simp only [List.cons_append, List.nil_append] at hrd
              simp [flagsOutArg, hrd, h0, bytesToNat, byteLE]
      · -- primitive or custom
        have hind' : find = false := by simpa using hind
        subst hind'
        rw [if_neg (by simp)] at hwt
        by_cases hprim : isPrimitiveType ty = true
        · -- primitive payload
          rw [if_pos hprim] at hwt
          have hca : canonArg sch
              ⟨nm, ty, false, uvi, false, fidx, false, false, cbi, skip⟩ v = v := by
            rw [canonArg_unfold]
            rw [if_neg (by simp), if_neg (by simp), if_neg (by simp),
              if_neg (by simp), if_neg (by simp)]
            by_cases htrue : ty == "true"
            · have hty : ty = "true" := by simpa using htrue
              subst hty
              have hv : v = Val.vbool true := by simpa [wtPrim] using hwt
              rw [if_pos (by simp), hv]
            · rw [if_neg (by simpa using htrue), if_pos hprim]
          obtain ⟨bs, hwp, _⟩ := prim_roundtrip hwt []
          refine ⟨bs, ?_, ?_⟩
          · rw [write_to_bytes_unfold]
            rw [if_neg (by simp), if_neg (by simp), if_neg (by simp),
              if_neg (by simp), if_neg (by simp), if_pos hprim]
            exact hwp
          · intro fuel hfuel flagsB rest
            obtain ⟨bs2, hwp2, hrp2⟩ := prim_roundtrip hwt rest
            rw [hwp] at hwp2
            obtain rfl : bs = bs2 := Option.some_inj.mp hwp2
            cases fuel with
            | zero =>
              have := dneedV_ge v
              omega
            | succ f =>
              rw [write_read_code_unfold, hca]
              simp [flagsOutArg, hprim, hrp2]
        · -- custom (registered entity) payload
          rw [if_neg hprim] at hwt
          have hprim' : isPrimitiveType ty = false := by simpa using hprim
          cases v <;> simp only [Bool.false_eq_true] at hwt
          rename_i cid flds
          simp only [Bool.and_eq_true, Bool.not_eq_true'] at hwt
          obtain ⟨hskip, hwt⟩ := hwt
          subst hskip
          cases hlk : lookupCid sch cid with
          | none => rw [hlk] at hwt; simp at hwt
          | some e =>
            rw [hlk] at hwt
            simp only [Bool.and_eq_true, beq_iff_eq] at hwt
            obtain ⟨⟨⟨hlen, hWF⟩, hcons⟩, hargs⟩ := hwt
            have hWF' := hWF
            simp only [entityWF, Bool.and_eq_true, decide_eq_true_eq,
              List.all_eq_true] at hWF'
            obtain ⟨⟨⟨hid, hidx⟩, hnd⟩, hfai⟩ := hWF'
            have hcid : e.id = cid := (lookupCid_mem hlk).2
            subst hcid
            have hszo : vsize (Val.obj e.id flds) = 1 + vsizes flds := by
              rw [vsize]
            have hfl : vsizes flds ≤ n - 1 := by omega
            have hn : 1 ≤ n := by
              have := vsizes_pos flds
              omega
            obtain ⟨body, hbe, hbd⟩ := (ih (n - 1) (by omega)).2.2.2 flds e.args
              (e.args.zip flds) Option.none hfl hargs (fun p hp => hp)
              (fun p hp =>
                by simpa [decide_eq_true_eq] using hidx p.1 (List.of_mem_zip hp).1)
              hcons (Or.inr hfai)
            have hok : assertOK (e.args.zip flds) = true :=
              flagConsistent_assertOK hcons
            obtain ⟨hp32, _, hbn⟩ := packU32_roundtrip hid []
            have htne : (ty == "true") = false := by
              cases h : ty == "true"
              · rfl
              · exfalso
                have hty : ty = "true" := by simpa using h
                subst hty
                simp [isPrimitiveType] at hprim'
            refine ⟨byteLE 4 e.id ++ body, ?_, ?_⟩
            · rw [write_to_bytes_unfold]
              simp [hprim', hlk, hlen, hok, hp32, hbe]
            · intro fuel hfuel flagsB rest
              have hdo : dneedV (Val.obj e.id flds) = 3 + dneedVs flds := by
                rw [dneedV]
              cases fuel with
              | zero => omega
              | succ f =>
                rw [write_read_code_unfold, canonArg_unfold]
                have hbd' := hbd f (by omega) rest
                have hrd := readBytes_exact (k := 4) (l := byteLE 4 e.id)
                  (r := body ++ rest) (byteLE_length 4 e.id)
                simp [flagsOutArg, hprim', htne, List.append_assoc, hrd, hbn,
                  hlk, hbd']
  refine ⟨hCORE, ?_, ?_, ?_⟩
  · -- ARG
    intro v a ctx flagsB hsz hwt hctx hflag
    by_cases hgen : a.generic_definition = true
    · -- generic definition: nothing written, `None` stored
      refine ⟨[], ?_, ?_⟩
      · rw [write_to_bytes_unfold, if_pos hgen]
      · intro fuel hfuel rest
        cases fuel with
        | zero => omega
        | succ f =>
          rw [write_read_code_unfold, canonArg_unfold]
          simp [hgen, flagsOutArg]
    · have hgen' : a.generic_definition = false := by simpa using hgen
      by_cases hflagb : a.is_flag = true
      · obtain ⟨hB, hmem, hcons⟩ := hflag hflagb
        subst hB
        by_cases htrue : (a.type == "true") = true
        · -- `true`-kind flag: nothing written, presence bit read back
          refine ⟨[], ?_, ?_⟩
          · rw [write_to_bytes_unfold]
            simp [hflagb, htrue]
          · intro fuel hfuel rest
            cases fuel with
            | zero => omega
            | succ f =>
              rw [write_read_code_unfold, canonArg_unfold]
              have hbit : (maskOf ctx &&& (1 <<< a.flag_index) != 0) = presentV v := by
                rw [and_one_shift_ne]
                exact flagConsistent_bit hcons hmem hflagb
              simp [hgen', hflagb, htrue, flagsOutArg, hbit]
        · have htrue' : (a.type == "true") = false := by simpa using htrue
          by_cases habs : cnd2 v = true
          · -- absent flag: nothing written, bit clear, `None` read back
            refine ⟨[], ?_, ?_⟩
            · rw [write_to_bytes_unfold]
              simp [hflagb, htrue', habs]
            · intro fuel hfuel rest
              cases fuel with
              | zero => omega
              | succ f =>
                rw [write_read_code_unfold, canonArg_unfold]
                have hbit : (maskOf ctx &&& (1 <<< a.flag_index) != 0) = false := by
                  rw [and_one_shift_ne, flagConsistent_bit hcons hmem hflagb,
                    presentV_eq_not_cnd2, habs]
                  rfl
                simp [hgen', hflagb, htrue', habs, flagsOutArg, hbit]
          · -- present flag: the payload is written; the bit is set
            have habs' : cnd2 v = false := by simpa using habs
            have hwt' : wtArg sch { a with is_flag := false } v = true := by
              rw [← wtArg_strip_flag sch a v hgen' htrue' habs']
              exact hwt
            obtain ⟨bs, henc, hdec⟩ := hCORE v { a with is_flag := false } ctx hsz
              (by simp [hgen']) (by simp) hwt' hctx
            refine ⟨bs, ?_, ?_⟩
            · rw [write_to_bytes_strip_flag sch a v ctx hgen' htrue' habs']
              exact henc
            · intro fuel hfuel rest
              cases fuel with
              | zero => omega
              | succ f =>
                rw [write_read_code_unfold]
                have hbit : (maskOf ctx &&& (1 <<< a.flag_index) != 0) = true := by
                  rw [and_one_shift_ne, flagConsistent_bit hcons hmem hflagb,
                    presentV_eq_not_cnd2, habs']
                  rfl
                have hdec' := hdec f (by omega) (some (maskOf ctx)) rest
                have hfo : flagsOutArg { a with is_flag := false } ctx
                    (some (maskOf ctx)) = some (maskOf ctx) := by
                  unfold flagsOutArg
                  split <;> rfl
                have hfo2 : flagsOutArg a ctx (some (maskOf ctx)) =
                    some (maskOf ctx) := by
                  unfold flagsOutArg
                  split <;> rfl
                rw [canonArg_strip_flag sch a v hgen' htrue' habs']
                simp only [hgen'] at hdec' hfo
                simp [hgen', hflagb, htrue', hbit, hdec', hfo, hfo2]
      · -- not a flag at all: the core statement applies directly
        have hflagb' : a.is_flag = false := by simpa using hflagb
        obtain ⟨bs, henc, hdec⟩ := hCORE v a ctx hsz hgen' hflagb' hwt hctx
        exact ⟨bs, henc, fun fuel hfuel rest => hdec fuel (by omega) flagsB rest⟩
  · -- ELEMS
    intro xs a ctx hsz hvec hnf hgen hind hwt hctx
    cases xs with
    | nil =>
      refine ⟨[], by rw [writeVecElems_unfold], ?_⟩
      intro fuel hfuel flagsB rest
      have h1 : dneedEs [] = 1 := by rw [dneedEs]
      cases fuel with
      | zero => omega
      | succ f =>
        rw [readVecElems_unfold, canonVecElems_unfold]
        simp
    | cons x rest' =>
      have hsz' : vsizes (x :: rest') = 1 + vsize x + vsizes rest' := by
        rw [vsizes]
      have hx : vsize x ≤ n - 1 := by
        have h1 := vsizes_pos rest'
        omega
      have hr : vsizes rest' ≤ n - 1 := by
        have h1 := vsize_pos x
        omega
      have hn : 1 ≤ n := by
        have h1 := vsize_pos x
        have h2 := vsizes_pos rest'
        omega
      rw [wtVecElems_unfold] at hwt
      simp only [Bool.and_eq_true] at hwt
      obtain ⟨hwx, hwr⟩ := hwt
      obtain ⟨b1, he1, hd1⟩ := (ih (n - 1) (by omega)).1 x a ctx hx hgen hnf hwx hctx
      obtain ⟨b2, he2, hd2⟩ :=
        (ih (n - 1) (by omega)).2.2.1 rest' a ctx hr hvec hnf hgen hind hwr hctx
      refine ⟨b1 ++ b2, ?_, ?_⟩
      · rw [writeVecElems_unfold]
        simp [he1, he2]
      · intro fuel hfuel flagsB rest
        have hfe : dneedEs (x :: rest') = 3 + max (dneedV x) (dneedEs rest') := by
          rw [dneedEs]
        cases fuel with
        | zero => omega
        | succ f =>
          rw [readVecElems_unfold]
          have hout : flagsOutArg a ctx flagsB = flagsB := by
            simp [flagsOutArg, hind]
          have hd1' := hd1 f (by omega) flagsB (b2 ++ rest)
          rw [hout] at hd1'
          have hd2' := hd2 f (by omega) flagsB rest
          simp only [List.length_cons, List.append_assoc]
          rw [canonVecElems_unfold]
          simp [hd1', hd2']
  · -- ARGS
    intro vs args ctx flagsB hsz hwt hsub hctx hcons hinv
    cases args with
    | nil =>
      cases vs with
      | nil =>
        refine ⟨[], by rw [writeArgsJoin_unfold], ?_⟩
        intro fuel hfuel rest
        have h1 : dneedVs ([] : List Val) = 1 := by rw [dneedVs]
        cases fuel with
        | zero => omega
        | succ f =>
          rw [readArgsList_unfold, canonArgsList_unfold]
          simp
      | cons v vs' =>
        rw [wtArgsList_unfold] at hwt
        simp at hwt
    | cons a args' =>
      cases vs with
      | nil =>
        rw [wtArgsList_unfold] at hwt
        simp at hwt
      | cons v vs' =>
        rw [wtArgsList_unfold] at hwt
        simp only [Bool.and_eq_true] at hwt
        obtain ⟨hwv, hwr⟩ := hwt
        have hsz' : vsizes (v :: vs') = 1 + vsize v + vsizes vs' := by rw [vsizes]
        have hv : vsize v ≤ n - 1 := by
          have := vsizes_pos vs'
          omega
        have hr : vsizes vs' ≤ n - 1 := by
          have := vsize_pos v
          omega
        have hn : 1 ≤ n := by
          have := vsize_pos v
          have := vsizes_pos vs'
          omega
        have hflag : a.is_flag = true → flagsB = some (maskOf ctx) ∧
            (a, v) ∈ ctx ∧ flagConsistent ctx = true := by
          intro hf
          rcases hinv with hB | hA
          · refine ⟨hB, hsub (a, v) ?_, hcons⟩
            rw [List.zip_cons_cons]
            exact List.mem_cons_self _ _
          · rw [flagsAfterIndicator] at hA
            split at hA
            · rename_i hcond
              simp [hf] at hcond
            · simp [hf] at hA
        obtain ⟨b1, he1, hd1⟩ :=
          (ih (n - 1) (by omega)).2.1 v a ctx flagsB hv hwv hctx hflag
        have hinv' : flagsOutArg a ctx flagsB = some (maskOf ctx) ∨
            flagsAfterIndicator args' = true := by
          rcases hinv with hB | hA
          · unfold flagsOutArg
            split
            · left; rfl
            · left; exact hB
          · rw [flagsAfterIndicator] at hA
            split at hA
            · rename_i hcond
              left
              unfold flagsOutArg
              rw [if_pos hcond]
            · right
              rw [Bool.and_eq_true] at hA
              exact hA.2
        have hsub' : ∀ p ∈ args'.zip vs', p ∈ ctx := by
          intro p hp
          refine hsub p ?_
          rw [List.zip_cons_cons]
          exact List.mem_cons_of_mem _ hp
        obtain ⟨b2, he2, hd2⟩ :=
          (ih (n - 1) (by omega)).2.2.2 vs' args' ctx (flagsOutArg a ctx flagsB)
            hr hwr hsub' hctx hcons hinv'
        refine ⟨b1 ++ b2, ?_, ?_⟩
        · rw [writeArgsJoin_unfold]
          simp [he1, he2]
        · intro fuel hfuel rest
          have hfe : dneedVs (v :: vs') = 3 + max (dneedV v) (dneedVs vs') := by
            rw [dneedVs]
          cases fuel with
          | zero => omega
          | succ f =>
            rw [readArgsList_unfold]
            have hd1' := hd1 f (by omega) (b2 ++ rest)
            have hd2' := hd2 f (by omega) rest
            rw [canonArgsList_unfold]
            simp only [List.append_assoc]
            simp [hd1', hd2']

/-! ### Claim theorems -/

/-- C1 (corrected): for every registered entity none of whose
custom-typed values sits at a `skip_constructor_id` (bare) argument, at
any nesting depth — the `wtArgsList` hypothesis requires
`!skip_constructor_id` at every custom-typed position — and every
instance satisfying its field constraints, the generated encoder
succeeds and the generated reader decodes the produced byte stream back
to the *canonicalization* of the instance: `generic_definition` and
`flag_indicator` positions read back as `None`, a `true`-kind flag reads
back as its presence boolean, and an optional field supplied as `False`
reads back as `None`; `decode(encode(value)) == value` therefore holds
exactly when such an instance is already canonical.  The bare-field
restriction is essential, not technical: the encoder writes a bare
nested field as `bytes(x)` with its constructor id (there is no bare
encode mode, see C3) while the static decoder consumes no id, so for an
entity with a bare field even canonical instances fail to round-trip
(second half of the counterexample theorem). -/
theorem C1_roundtrip_decodes_to_canonical (sch : Schema) (e : TLObject)
    (flds : List Val)
    (hreg : lookupCid sch e.id = some e)
    (hlen : flds.length = e.args.length)
    (hWF : entityWF e = true)
    (hcons : flagConsistent (e.args.zip flds) = true)
    (hargs : wtArgsList sch e.args flds = true) :
    ∃ bs, writeEntity sch e flds = some bs ∧
      ∀ fuel, dneedVs flds ≤ fuel → ∀ rest,
        tgread_object fuel sch (bs ++ rest) =
          some (Val.obj e.id (canonArgsList sch e.args flds), rest) := by
  have hWF' := hWF
  simp only [entityWF, Bool.and_eq_true, decide_eq_true_eq,
    List.all_eq_true] at hWF'
  obtain ⟨⟨⟨hid, hidx⟩, hnd⟩, hfai⟩ := hWF'
  obtain ⟨body, hbe, hbd⟩ := (roundtrip_bundle sch (vsizes flds)).2.2.2 flds
    e.args (e.args.zip flds) Option.none (le_refl _) hargs (fun p hp => hp)
    (fun p hp =>
      by simpa [decide_eq_true_eq] using hidx p.1 (List.of_mem_zip hp).1)
    hcons (Or.inr hfai)
  have hok : assertOK (e.args.zip flds) = true := flagConsistent_assertOK hcons
  obtain ⟨hp32, _, hbn⟩ := packU32_roundtrip hid []
  refine ⟨byteLE 4 e.id ++ body, ?_, ?_⟩
  · unfold writeEntity
    simp [hlen, hok, hp32, hbe]
  · intro fuel hfuel rest
    have hbd' := hbd fuel hfuel rest
    unfold tgread_object
    have hrd := readBytes_exact (k := 4) (l := byteLE 4 e.id)
      (r := body ++ rest) (byteLE_length 4 e.id)
    simp [List.append_assoc, hrd, hbn, hreg, hbd']

/-- Witness for C1: the theorem applied to the sample entity with every
optional field present. -/
theorem C1_roundtrip_decodes_to_canonical_witness :
    wtArgsList schUser entUser.args fldsGood = true ∧
    (∃ bs, writeEntity schUser entUser fldsGood = some bs ∧
      ∀ fuel, dneedVs fldsGood ≤ fuel → ∀ rest,
        tgread_object fuel schUser (bs ++ rest) =
          some (Val.obj entUser.id
            (canonArgsList schUser entUser.args fldsGood), rest)) :=
  ⟨by decide,
    C1_roundtrip_decodes_to_canonical schUser entUser fldsGood (by decide)
      (by decide) (by decide) (by decide) (by decide)⟩

/-- Counterexample to C1 as stated: the sample instance whose `verified`
flag is absent as `None` and whose `mutual_contact` flag is supplied as
`False` encodes successfully, but decoding the produced bytes does not
return the original instance (`verified` comes back as `False`,
`mutual_contact` as `None`); and for an entity with a bare
(`skip_constructor_id`) nested field even the canonical instance
`wrap(point(1))` fails — the encoder writes the nested id
`03 00 00 00`, the static decoder reads it as the payload `x = 3` and
leaves the true payload bytes unconsumed. -/
theorem C1_not_identity_counterexample :
    ((writeEntity schUser entUser fldsBad).isSome = true ∧
    (writeEntity schUser entUser fldsBad).bind (tgread_object 20 schUser) ≠
      some (Val.obj 7 fldsBad, [])) ∧
    (writeEntity schWrap entWrap [Val.obj 3 [Val.vint 1]] =
      some [13, 0, 0, 0, 3, 0, 0, 0, 1, 0, 0, 0] ∧
    (writeEntity schWrap entWrap [Val.obj 3 [Val.vint 1]]).bind
        (tgread_object 20 schWrap) =
      some (Val.obj 13 [Val.obj 3 [Val.vint 3]], [1, 0, 0, 0]) ∧
    (writeEntity schWrap entWrap [Val.obj 3 [Val.vint 1]]).bind
        (tgread_object 20 schWrap) ≠
      some (Val.obj 13 [Val.obj 3 [Val.vint 1]], [])) := by
  refine ⟨⟨by decide, by decide⟩, by decide, by decide, by decide⟩

/-- C2 (corrected): a `use_vector_id` vector writes the fixed 4-byte
marker, then a 32-bit signed element count, then the elements encoded by
re-entering the generated per-field encoder with `is_vector` cleared —
which for a boxed user element type emits each element *with* its own
4-byte constructor id (`bytes(x)`), not bare; the decoder discards the
marker, reads the 32-bit count, and re-reads that many elements the same
way. -/
theorem C2_vector_framing (sch : Schema) (a : TLArg) (xs : List Val)
    (ctx : List (TLArg × Val))
    (hgen : a.generic_definition = false) (hflag : a.is_flag = false)
    (hvec : a.is_vector = true) (huvi : a.use_vector_id = true)
    (hwt : wtArg sch a (Val.vec xs) = true)
    (hctx : ∀ p ∈ ctx, p.1.flag_index < 32) :
    ∃ cnt body,
      packSigned 4 (xs.length : Int) = some cnt ∧
      writeVecElems sch { a with is_vector := false, is_flag := false } xs
        ctx = some body ∧
      write_to_bytes sch a (Val.vec xs) ctx =
        some (vectorIdBytes ++ cnt ++ body) ∧
      ∀ fuel, dneedV (Val.vec xs) ≤ fuel → ∀ flagsB rest,
        write_read_code fuel sch a flagsB
            ((vectorIdBytes ++ cnt ++ body) ++ rest) =
          some (Val.vec (canonVecElems sch
              { a with is_vector := false, is_flag := false } xs),
            flagsB, rest) := by
  obtain ⟨nm, ty, isv, uvi, isf, fidx, find, gdef, cbi, skip⟩ := a
  replace hgen : gdef = false := hgen
  replace hflag : isf = false := hflag
  replace hvec : isv = true := hvec
  replace huvi : uvi = true := huvi
  subst hgen
  subst hflag
  subst hvec
  subst huvi
  rw [wtArg_unfold] at hwt
  rw [if_neg (by simp), if_neg (by simp), if_neg (by simp),
    if_pos (by simp)] at hwt
  simp only [Bool.and_eq_true, Bool.not_eq_true', decide_eq_true_eq] at hwt
  obtain ⟨⟨hfind, hlen⟩, hels⟩ := hwt
  obtain ⟨ebs, hee, hed⟩ := (roundtrip_bundle sch (vsizes xs)).2.2.1 xs
    ⟨nm, ty, false, true, false, fidx, find, false, cbi, skip⟩ ctx
    (le_refl _) rfl rfl rfl (by exact hfind) hels hctx
  have hc : ((256 ^ 4 / 2 : Nat) : Int) = 2 ^ 31 := by norm_num
  obtain ⟨cnt, hcp, hclen, hcv⟩ := toSigned_packSigned (k := 4) (by omega)
    (n := (xs.length : Int)) (by rw [hc]; omega)
    (by rw [hc]; exact_mod_cast hlen)
  refine ⟨cnt, ebs, hcp, hee, ?_, ?_⟩
  · rw [write_to_bytes_unfold]
    simp [hcp, hee]
  · intro fuel hfuel flagsB rest
    have hdv : dneedV (Val.vec xs) = 3 + dneedEs xs := by rw [dneedV]
    cases fuel with
    | zero => omega
    | succ f =>
      rw [write_read_code_unfold]
      have hed' := hed f (by omega) flagsB rest
      have hcnt0 : ((xs.length : Int)).toNat = xs.length := by omega
      have hrd0 := readBytes_exact (k := 4) (l := vectorIdBytes)
        (r := cnt ++ (ebs ++ rest)) (by decide)
      simp [List.append_assoc, hrd0, readBytes_exact hclen, hcv, hcnt0, hed']

/-- Witness for C2: the theorem applied to a one-element vector of the
sample boxed entity. -/
theorem C2_vector_framing_witness :
    wtArg schPts argPs (Val.vec [Val.obj 3 [Val.vint 1]]) = true ∧
    (∃ cnt body,
      packSigned 4 (([Val.obj 3 [Val.vint 1]].length : Nat) : Int) =
        some cnt ∧
      writeVecElems schPts
        { argPs with is_vector := false, is_flag := false }
        [Val.obj 3 [Val.vint 1]] [] = some body ∧
      write_to_bytes schPts argPs (Val.vec [Val.obj 3 [Val.vint 1]]) [] =
        some (vectorIdBytes ++ cnt ++ body) ∧
      ∀ fuel, dneedV (Val.vec [Val.obj 3 [Val.vint 1]]) ≤ fuel →
        ∀ flagsB rest,
          write_read_code fuel schPts argPs flagsB
              ((vectorIdBytes ++ cnt ++ body) ++ rest) =
            some (Val.vec (canonVecElems schPts
                { argPs with is_vector := false, is_flag := false }
                [Val.obj 3 [Val.vint 1]]),
              flagsB, rest)) :=
  ⟨by decide,
    C2_vector_framing schPts argPs [Val.obj 3 [Val.vint 1]] [] (by decide)
      (by decide) (by decide) (by decide) (by decide)
      (fun p hp => absurd hp (List.not_mem_nil p))⟩

/-- Counterexample to C2 as stated: encoding a one-element
`Vector<Point>` emits the element with its own constructor id
`03 00 00 00` between the count and the payload — the element is boxed,
not bare as the specification claims. -/
theorem C2_boxed_elements_counterexample :
    write_to_bytes schPts argPs (Val.vec [Val.obj 3 [Val.vint 1]]) [] =
      some [21, 196, 181, 28, 1, 0, 0, 0, 3, 0, 0, 0, 1, 0, 0, 0] ∧
    write_to_bytes schPts argPs (Val.vec [Val.obj 3 [Val.vint 1]]) [] ≠
      some [21, 196, 181, 28, 1, 0, 0, 0, 1, 0, 0, 0] := by
  constructor
  · decide
  · decide

/-- C3 (corrected): the generated encoder has no bare mode for nested
values — a custom-typed field is always encoded as `bytes(x)`, whose
first four bytes are the nested entity's constructor id, whether or not
the field is declared `skip_constructor_id`; and an entity's own
`__bytes__` always starts with its constructor id (it is never
suppressed for nested use). -/
theorem C3_nested_always_boxed (sch : Schema) (a : TLArg) (cid : Nat)
    (flds : List Val) (ctx : List (TLArg × Val)) (e : TLObject)
    (body : List Nat)
    (hgen : a.generic_definition = false) (hflag : a.is_flag = false)
    (hvec : a.is_vector = false) (hind : a.flag_indicator = false)
    (hprim : isPrimitiveType a.type = false)
    (hlk : lookupCid sch cid = some e)
    (hid : e.id < 256 ^ 4)
    (hlen : flds.length = e.args.length)
    (hok : assertOK (e.args.zip flds) = true)
    (hbody : writeArgsJoin sch e.args flds (e.args.zip flds) = some body) :
    write_to_bytes sch a (Val.obj cid flds) ctx =
      some (byteLE 4 e.id ++ body) ∧
    writeEntity sch e flds = some (byteLE 4 e.id ++ body) := by
  obtain ⟨hp32, _, _⟩ := packU32_roundtrip hid []
  constructor
  · rw [write_to_bytes_unfold]
    simp [hgen, hflag, hvec, hind, hprim, hlk, hlen, hok, hp32, hbody]
  · unfold writeEntity
    simp [hlen, hok, hp32, hbody]

/-- Witness for C3: the theorem applied to a `skip_constructor_id` field
holding the sample entity — the id is emitted anyway. -/
theorem C3_nested_always_boxed_witness :
    argBareP.skip_constructor_id = true ∧
    write_to_bytes schPts argBareP (Val.obj 3 [Val.vint 1]) [] =
      some (byteLE 4 entPoint.id ++ [1, 0, 0, 0]) ∧
    writeEntity schPts entPoint [Val.vint 1] =
      some (byteLE 4 entPoint.id ++ [1, 0, 0, 0]) :=
  ⟨by decide,
    C3_nested_always_boxed schPts argBareP 3 [Val.vint 1] [] entPoint
      [1, 0, 0, 0] (by decide) (by decide) (by decide) (by decide)
      (by decide) (by decide) (by decide) (by decide) (by decide)
      (by decide)⟩

/-- Counterexample to C3 as stated: the field `p:point` is declared
`skip_constructor_id` (bare), yet the encoder emits the nested
constructor id `03 00 00 00` — the bare mode the specification describes
does not exist in the generated `__bytes__`. -/
theorem C3_no_bare_mode_counterexample :
    argBareP.skip_constructor_id = true ∧
    write_to_bytes schPts argBareP (Val.obj 3 [Val.vint 1]) [] =
      some [3, 0, 0, 0, 1, 0, 0, 0] ∧
    write_to_bytes schPts argBareP (Val.obj 3 [Val.vint 1]) [] ≠
      some [1, 0, 0, 0] := by
  refine ⟨by decide, by decide, by decide⟩

theorem pyFind_eq_firstIdx (s : List Char) (c : Char) :
    pyFind s c = firstIdx s c := by
  induction s with
  | nil => rfl
  | cons x rest ih =>
    have hcons : List.findIdx? (fun y => decide (y = c)) (x :: rest) =
        if decide (x = c) then some 0
        else (List.findIdx? (fun y => decide (y = c)) rest).map (· + 1) := by
      rw [List.findIdx?_cons]
      rcases h : decide (x = c) with _ | _
      · simp [h, List.findIdx?_succ]
      · simp [h]
    by_cases hx : x = c
    · simp [pyFind, firstIdx, hcons, hx]
    · rw [pyFind, firstIdx, hcons]
      simp only [hx, decide_False, if_false]
      rw [ih]
      cases hfi : List.findIdx? (fun y => decide (y = c)) rest with
      | none => simp [firstIdx, hfi]
      | some j =>
        simp only [firstIdx, hfi, Option.map_some']
        norm_num
        omega

/-- C4 (corrected): the boxed/bare classifier inspects the character
immediately after the *later of the first occurrences* of `'<'` and
`'.'` (`str.find`, `-1` when absent) — not after the last occurrence as
the specification states — and reports whether it is uppercase. -/
theorem C4_boxed_rule_first_occurrences (t : List Char) :
    is_boxed t = boxedRuleAmended t := by
  unfold is_boxed boxedRuleAmended
  rw [pyFind_eq_firstIdx, pyFind_eq_firstIdx]

/-- Counterexample to C4 as stated: on `a.b.C` the source classifier
looks after the *first* dot and sees lowercase `b` (bare), while the
last-occurrence rule of the specification sees uppercase `C` (boxed). -/
theorem C4_last_occurrence_counterexample :
    is_boxed ("a.b.C".data) = some false ∧
    boxedRuleSpec ("a.b.C".data) = some true := by
  refine ⟨by decide, by decide⟩

/-- C5 (confirmed): at the `flag_indicator` position the encoder writes
the 32-bit little-endian bitmask `OR (1 <<< flag_index)` over exactly
the present flag fields (`None` and `False` both counting as absent),
which is zero bytes `00 00 00 00` when no flag field is present; each
bit of the mask reports exactly the presence of the fields carrying that
index, and the generated reader reads the mask back into its `flags`
local, recovering exactly the present set. -/
theorem C5_flag_bitmask (sch : Schema) (a : TLArg) (ctx : List (TLArg × Val))
    (hgen : a.generic_definition = false) (hflag : a.is_flag = false)
    (hvec : a.is_vector = false) (hind : a.flag_indicator = true)
    (hctx : ∀ p ∈ ctx, p.1.flag_index < 32)
    (hcons : flagConsistent ctx = true) :
    write_to_bytes sch a Val.none ctx = some (byteLE 4 (maskOf ctx)) ∧
    (∀ k, (maskOf ctx).testBit k =
      ctx.any (fun p => p.1.is_flag && p.1.flag_index == k && presentV p.2)) ∧
    (∀ p ∈ ctx, p.1.is_flag = true →
      (maskOf ctx).testBit p.1.flag_index = presentV p.2) ∧
    (∀ fuel flagsB rest, 1 ≤ fuel →
      write_read_code fuel sch a flagsB (byteLE 4 (maskOf ctx) ++ rest) =
        some (Val.none, some (maskOf ctx), rest)) := by
  have hm : maskOf ctx < 256 ^ 4 := by
    have := maskOf_lt ctx hctx
    omega
  refine ⟨?_, fun k => maskOf_testBit ctx k,
    fun p hp hf => flagConsistent_bit hcons hp hf, ?_⟩
  · rw [write_to_bytes_unfold]
    by_cases hany : (ctx.map Prod.fst).any (fun f => f.is_flag) = true
    · obtain ⟨hp32, _, _⟩ := packU32_roundtrip hm []
      simp [hgen, hflag, hvec, hind, hany, hp32]
    · have hany' : (ctx.map Prod.fst).any (fun f => f.is_flag) = false := by
        simpa using hany
      have h0 : maskOf ctx = 0 := maskOf_no_flags ctx hany'
      simp [hgen, hflag, hvec, hind, hany', h0,
        (by decide : byteLE 4 0 = [0, 0, 0, 0])]
  · intro fuel flagsB rest h1
    cases fuel with
    | zero => omega
    | succ f =>
      rw [write_read_code_unfold]
      have hrd := readBytes_exact (k := 4) (l := byteLE 4 (maskOf ctx))
        (r := rest) (byteLE_length 4 (maskOf ctx))
      simp [hgen, hflag, hvec, hind, hrd, bytesToNat_byteLE_of_lt hm]

/-- Witness for C5: the theorem applied to the sample entity's argument
context with every optional field present. -/
theorem C5_flag_bitmask_witness :
    flagConsistent (entUser.args.zip fldsGood) = true ∧
    (write_to_bytes schUser argFlags Val.none (entUser.args.zip fldsGood) =
      some (byteLE 4 (maskOf (entUser.args.zip fldsGood))) ∧
    (∀ k, (maskOf (entUser.args.zip fldsGood)).testBit k =
      (entUser.args.zip fldsGood).any
        (fun p => p.1.is_flag && p.1.flag_index == k && presentV p.2)) ∧
    (∀ p ∈ entUser.args.zip fldsGood, p.1.is_flag = true →
      (maskOf (entUser.args.zip fldsGood)).testBit p.1.flag_index =
        presentV p.2) ∧
    (∀ fuel flagsB rest, 1 ≤ fuel →
      write_read_code fuel schUser argFlags flagsB
          (byteLE 4 (maskOf (entUser.args.zip fldsGood)) ++ rest) =
        some (Val.none, some (maskOf (entUser.args.zip fldsGood)), rest))) :=
  ⟨by decide,
    C5_flag_bitmask schUser argFlags (entUser.args.zip fldsGood) (by decide)
      (by decide) (by decide) (by decide) (by decide) (by decide)⟩

/-- C6 (code bug): the emitted group assertion
`(self.x or self.x is not None)` is equivalent to `self.x is not None`,
so a member supplied as `False` — absent in the presence sense the
encoder then uses for the bitmask — still counts as present for the
check: an instance with a strict non-empty subset of a co-dependent
group present passes the assertion, encodes successfully instead of
failing with `InconsistentFlagGroup`, and the produced bytes no longer
decode to the written instance. -/
theorem C6_group_check_ineffective :
    assertOK (entBoth.args.zip fldsBoth) = true ∧
    flagConsistent (entBoth.args.zip fldsBoth) = false ∧
    (writeEntity schBoth entBoth fldsBoth).isSome = true ∧
    (writeEntity schBoth entBoth fldsBoth).bind (tgread_object 20 schBoth) ≠
      some (Val.obj 11 fldsBoth, []) := by
  refine ⟨by decide, by decide, by decide, by decide⟩

/-- C7 (corrected): a declared result of exactly `Vector<int>` or
`Vector<long>` takes the special branch, any other `Vector<...>` result
is read by `reader.tgread_vector()` and a non-vector result by
`reader.tgread_object()`; but the special branches *do* consume (and
discard) a leading 4-byte vector id, and `Vector<long>` reads its count
with `reader.read_long()` — an 8-byte count — so only the `Vector<int>`
branch matches the stated 32-bit count, and neither branch omits the
marker read. -/
theorem C7_result_reader (input m : List Nat) (hm : m.length = 4) :
    readVecIntResult (m ++ input) = readVecIntResultSpec input ∧
    readVecLongResult (m ++ input) =
      ((readBytes 8 input).bind fun p =>
        readLongList (toSigned 8 (bytesToNat p.1)).toNat p.2) ∧
    request_result_code "Vector<int>" = ResultReaderCode.vecIntSpecial ∧
    request_result_code "Vector<long>" = ResultReaderCode.vecLongSpecial ∧
    request_result_code "Vector<User>" = ResultReaderCode.tgreadVectorCall ∧
    request_result_code "User" = ResultReaderCode.tgreadObjectCall := by
  have hrd := readBytes_exact (k := 4) (l := m) (r := input) hm
  refine ⟨?_, ?_, by decide, by decide, by decide, by decide⟩
  · unfold readVecIntResult readVecIntResultSpec
    rw [hrd]
    rfl
  · unfold readVecLongResult
    rw [hrd]
    rfl

/-- Witness for C7: the theorem applied to a concrete marker and body. -/
theorem C7_result_reader_witness :
    ([9, 9, 9, 9] : List Nat).length = 4 ∧
    (readVecIntResult ([9, 9, 9, 9] ++ [1, 0, 0, 0, 5, 0, 0, 0]) =
      readVecIntResultSpec [1, 0, 0, 0, 5, 0, 0, 0] ∧
    readVecLongResult ([9, 9, 9, 9] ++ [1, 0, 0, 0, 5, 0, 0, 0]) =
      ((readBytes 8 [1, 0, 0, 0, 5, 0, 0, 0]).bind fun p =>
        readLongList (toSigned 8 (bytesToNat p.1)).toNat p.2) ∧
    request_result_code "Vector<int>" = ResultReaderCode.vecIntSpecial ∧
    request_result_code "Vector<long>" = ResultReaderCode.vecLongSpecial ∧
    request_result_code "Vector<User>" = ResultReaderCode.tgreadVectorCall ∧
    request_result_code "User" = ResultReaderCode.tgreadObjectCall) :=
  ⟨by decide, C7_result_reader [1, 0, 0, 0, 5, 0, 0, 0] [9, 9, 9, 9] (by decide)⟩

/-- Counterexample to C7 as stated: on the bytes `01 00 00 00 05 00 00 00`
the stated marker-free 32-bit reader returns the one-element list `[5]`,
while the generated `Vector<int>` reader discards the first four bytes
as the marker and then fails; and the generated `Vector<long>` reader
consumes an 8-byte count where the stated reader consumes 4. -/
theorem C7_counterexample :
    readVecIntResult [1, 0, 0, 0, 5, 0, 0, 0] ≠
      readVecIntResultSpec [1, 0, 0, 0, 5, 0, 0, 0] ∧
    readVecLongResult
        ([9, 9, 9, 9] ++ [1, 0, 0, 0, 0, 0, 0, 0] ++
          [2, 0, 0, 0, 0, 0, 0, 0]) ≠
      readVecLongResultSpec
        ([9, 9, 9, 9] ++ [1, 0, 0, 0, 0, 0, 0, 0] ++
          [2, 0, 0, 0, 0, 0, 0, 0]) := by
  refine ⟨by decide, by decide⟩

/-- C8 (corrected): for a module entity whose result-type name contains
no dot, the bottom-of-module `type_defs` loop emits nothing when the
name has no constructors, an alias when it has exactly one, and a union
over exactly the implementing entities in schema declaration order when
it has more; a dotted result-type name is first rewritten to its
`[rindex(dot):]` suffix — which keeps the dot, matches no entity's
declared result, and therefore never produces a definition. -/
theorem C8_type_defs (sch : Schema) (t : TLObject)
    (htf : t.is_function = false)
    (hdot : t.result.data.contains '.' = false) :
    write_init_type_defs sch [t] [] =
      match type_constructors sch t.result with
      | [] => []
      | [c] => [TypeDef.alias t.result c]
      | cs => [TypeDef.union t.result cs] := by
  have hdot' : ('.') ∉ t.result.data := by simpa using hdot
  unfold write_init_type_defs
  simp [htf, hdot', write_init_type_defs]
  rcases type_constructors sch t.result with _ | ⟨c, _ | ⟨d, cs⟩⟩ <;> rfl

/-- Witness for C8: the theorem applied to the two-constructor result
type `Point`, producing the union over both constructors in declaration
order. -/
theorem C8_type_defs_witness :
    entPoint.is_function = false ∧
    write_init_type_defs schPts2 [entPoint] [] =
      (match type_constructors schPts2 entPoint.result with
      | [] => []
      | [c] => [TypeDef.alias entPoint.result c]
      | cs => [TypeDef.union entPoint.result cs]) :=
  ⟨by decide, C8_type_defs schPts2 entPoint (by decide) (by decide)⟩

/-- Counterexample to C8 as stated: the namespaced result type
`ns.Thing` has two implementing entities, yet the module's `type_defs`
loop emits no union (nor alias) at all, because the name is rewritten to
`.Thing` (the dot is kept) and no entity declares that result. -/
theorem C8_namespaced_counterexample :
    (type_constructors schNs "ns.Thing").length = 2 ∧
    write_init_type_defs schNs schNs [] = [] := by
  refine ⟨by decide, by decide⟩

/-- C9 (corrected): building the `tlobjects = { ... }` literal performs
no duplicate-id check and never fails — the registry is always
published, and looking a constructor id up in it returns the *last*
entity declared with that id (Python dict literal semantics), exactly
the `lookupCid` the decoder dispatches through. -/
theorem C9_registry_last_wins (sch : Schema) (cid : Nat) :
    dictLookup (tlobjectsEntries sch) cid = lookupCid sch cid := by
  induction sch with
  | nil => rfl
  | cons e rest ih =>
    unfold tlobjectsEntries at ih ⊢
    unfold lookupCid at ih ⊢
    simp only [List.map_cons, List.filter_cons]
    unfold dictLookup
    rw [ih]
    cases hf : List.filter (fun x => x.id == cid) rest with
    | nil =>
      by_cases he : (e.id == cid) = true
      · simp [he]
      · simp [he]
    | cons y l =>
      cases hg : (y :: l).getLast? with
      | none => simp at hg
      | some r =>
        by_cases he : (e.id == cid) = true
        · simp [he, List.getLast?_cons_cons, hg]
        · simp [he, hg]

/-- Counterexample to C9 as stated: two sample entities share the id
`5`, yet the registry is published without any error and resolves the
id to the later entity. -/
theorem C9_duplicate_id_counterexample :
    entDup1.id = entDup2.id ∧ entDup1 ≠ entDup2 ∧
    dictLookup (tlobjectsEntries schDup) 5 = some entDup2 := by
  refine ⟨by decide, by decide, by decide⟩

/-- C10 (corrected): only an argument literally named `random_id` is
inferrable (any other `can_be_inferred` argument makes generation fail
with `ValueError`); a vector `random_id` makes the generator itself
evaluate `next(a for a in args if a.name == 'id')` while writing the
class, so when no field literally named `id` exists, generation crashes
at schema-compile time with an uncaught `StopIteration` — not with a
`CannotInferField` error — even if another vector-typed field is
available; a non-vector `id` makes generation fail with `ValueError`,
also at schema-compile time; when the `id` field is a vector, the
generated `__init__` fills `random_id` with a list of `len(id)` random
correlation ids of the declared width (8 bytes for `long`, 4
otherwise). -/
theorem C10_infer_random_id (args : List TLArg) (a : TLArg)
    (hname : a.name = "random_id") (hvec : a.is_vector = true) :
    (args.find? (fun x => x.name == "id") = Option.none →
      infer_random_id args a = Except.error "StopIteration") ∧
    (∀ idArg, args.find? (fun x => x.name == "id") = some idArg →
      idArg.is_vector = true →
      infer_random_id args a =
        Except.ok (InferPlan.vectorOfLen
          (if a.type == "long" then 8 else 4) "id")) ∧
    (∀ idArg, args.find? (fun x => x.name == "id") = some idArg →
      idArg.is_vector = false →
      infer_random_id args a =
        Except.error "ValueError: Cannot infer list of random ids") := by
  refine ⟨?_, ?_, ?_⟩
  · intro hfind
    unfold infer_random_id
    simp [hname, hvec, hfind]
  · intro idArg hfind hidv
    unfold infer_random_id
    simp [hname, hvec, hfind, hidv]
  · intro idArg hfind hidv
    unfold infer_random_id
    simp [hname, hvec, hfind, hidv]

/-- Witness for C10: the theorem applied to an argument list whose `id`
field is a vector of longs. -/
theorem C10_infer_random_id_witness :
    argRandomIds.name = "random_id" ∧
    (([argIdVec].find? (fun x => x.name == "id") = Option.none →
      infer_random_id [argIdVec] argRandomIds =
        Except.error "StopIteration") ∧
    (∀ idArg, [argIdVec].find? (fun x => x.name == "id") = some idArg →
      idArg.is_vector = true →
      infer_random_id [argIdVec] argRandomIds =
        Except.ok (InferPlan.vectorOfLen
          (if argRandomIds.type == "long" then 8 else 4) "id")) ∧
    (∀ idArg, [argIdVec].find? (fun x => x.name == "id") = some idArg →
      idArg.is_vector = false →
      infer_random_id [argIdVec] argRandomIds =
        Except.error "ValueError: Cannot infer list of random ids")) :=
  ⟨by decide, C10_infer_random_id [argIdVec] argRandomIds (by decide)
    (by decide)⟩

/-- Counterexample to C10 as stated: the entity has another vector-typed
field (`peers`) from which a length could in principle be inferred, yet
inferring a vector `random_id` still fails, because the reference field
must be literally named `id`; and the failure is the bare
`StopIteration` of the generator's own `next(...)` call, not the
`CannotInferField` error the specification names. -/
theorem C10_counterexample :
    argPeers.is_vector = true ∧
    infer_random_id [argPeers, argRandomIds] argRandomIds =
      Except.error "StopIteration" := by
  refine ⟨by decide, by rfl⟩

end TLGen

